import Mathlib

/-!
Verification development for the suricata-language-server core
(`suricatals/langserver.py` and `suricatals/tests_rules.py`).

Python strings are modelled as lists of characters (`Str`) so that every
string operation used by the source (split, substring test, lower-casing,
trimming) is an executable structural recursion.  Helper code that lives in
the repository outside the two core files (the AST layer, the JSON decoder,
the regular-expression engine) is modelled by explicit function parameters
gathered in environment structures, following the interfaces fixed by the
specification.
-/

namespace Suricatals

/-- Python strings as lists of characters. -/
abbrev Str := List Char

/-- Characters removed by Python `str.strip()` (its ASCII whitespace set). -/
def isSpaceChar (c : Char) : Bool :=
  c == ' ' || c == '\t' || c == '\n' || c == '\r' || c == '\x0b' || c == '\x0c'

/-- Python `str.lower()` restricted to ASCII case mapping. -/
def lowerL (l : Str) : Str := l.map Char.toLower

/-- Python `str.strip()`. -/
def trimL (l : Str) : Str :=
  ((l.dropWhile isSpaceChar).reverse.dropWhile isSpaceChar).reverse

/-- Python `str.lstrip()`. -/
def lstripL (l : Str) : Str := l.dropWhile isSpaceChar

/-- Whether `p` is a prefix of `l` (used to locate separator occurrences). -/
def isPrefixOfL : Str → Str → Bool
  | [], _ => true
  | _ :: _, [] => false
  | a :: as, b :: bs => a == b && isPrefixOfL as bs

/-- Fuel-driven worker for `splitOnL`; the fuel is the length of the input,
which bounds the number of recursion steps for a non-empty separator. -/
def splitOnAuxL (sep : Str) : Nat → Str → List Str
  | 0, l => [l]
  | _ + 1, [] => [[]]
  | fuel + 1, c :: rest =>
    if isPrefixOfL sep (c :: rest) then
      [] :: splitOnAuxL sep fuel (List.drop sep.length (c :: rest))
    else
      match splitOnAuxL sep fuel rest with
      | [] => [[c]]
      | h :: t => (c :: h) :: t

/-- Python `str.split(sep)` for a literal separator: the list of fragments
between non-overlapping left-to-right occurrences of `sep`. -/
def splitOnL (sep l : Str) : List Str :=
  if sep.isEmpty then [l] else splitOnAuxL sep (l.length + 1) l

/-- Python substring test `sub in l`. -/
def hasSubstr (l sub : Str) : Bool :=
  sub.isEmpty || decide (1 < (splitOnL sub l).length)

/-- Python `l.count(sub)`: the number of non-overlapping occurrences. -/
def countSub (l sub : Str) : Nat := (splitOnL sub l).length - 1

/-- The lines produced by iterating `io.StringIO(l)`: each line keeps its
terminating newline, and a final fragment is produced only when non-empty. -/
def reattachNl : List Str → List Str
  | [] => []
  | [last] => if last.isEmpty then [] else [last]
  | p :: rest => (p ++ ['\n']) :: reattachNl rest

/-- Line iteration of `io.StringIO` over a whole string. -/
def stringIOLines (l : Str) : List Str := reattachNl (splitOnL ['\n'] l)

/-- First index satisfying a Boolean test (the Python pattern
`for i, x in enumerate(xs): if p(x): return i`). -/
def findIdxL (p : α → Bool) : List α → Option Nat
  | [] => none
  | a :: as => if p a then some 0 else (findIdxL p as).map (· + 1)

/-! ## Model of `tests_rules.py` (`TestRules.parse_suricata_error`) -/

/-- The `source` tag `TestRules.SURICATA_SYNTAX_CHECK`. -/
def suriSyntaxCheck : Str := "Suricata Syntax Check".data

/-- One decoded engine record: the `s_err['engine']` sub-dictionary of a
line of Suricata JSON output, restricted to the fields the parser reads or
writes (`error_code`, `message`, `source`, `sid`, `line`). -/
structure EngineRec where
  error_code : Int
  message : Str
  source : Option Str := none
  sid : Option Nat := none
  line : Option Int := none
deriving DecidableEq, Repr

/-- An entry of the result's `errors` list: either an engine record, or the
raw fallback record `{'message': error, 'format': 'raw', 'source': ...}`
appended when a line fails JSON decoding. -/
inductive ErrEntry where
  | eng (e : EngineRec)
  | raw (message fmt source : Str)
deriving DecidableEq, Repr

/-- The loop state of `parse_suricata_error`: the result dictionary under
construction plus the local accumulators `variable_list`, `files_list` and
the `ignore_next` flag. -/
structure ParseState where
  errors : List ErrEntry := []
  warnings : List EngineRec := []
  variable_list : List Str := []
  files_list : List Str := []
  ignore_next : Bool := false
deriving DecidableEq, Repr

/-- Initial state of the parsing loop. -/
def initParseState : ParseState := {}

/-- Modelled from the spec: the external decoding facilities used by
`parse_suricata_error` — `json.loads` composed with the `['engine']`
projection (`parseJson`, `none` exactly when `json.loads` raises
`JSONDecodeError`; decoded records are assumed to carry the `engine`
structure the parser reads), and the fixed regular expressions applied to
messages (`fopenMatch` for the dataset `fopen ...` pattern, `hashMatch` for
the `opening hash file ...` pattern, `sidSearch` for `sid *:(\d+)` on the
raw line, `atLineSearch` for `at line (\d+)$`, and `fileRefMatch f m` for
`re.search(': *f *;', m)`). -/
structure ParseEnv where
  parseJson : Str → Option EngineRec
  fopenMatch : Str → Option Str
  hashMatch : Str → Option Str
  sidSearch : Str → Option Nat
  atLineSearch : Str → Option Nat
  fileRefMatch : Str → Str → Bool

/-- Message built for an undefined address variable (engine error 101). -/
def customVarMsg (v : Str) : Str :=
  "Custom address variable \"$".data ++ v
    ++ "\" is used and need to be defined in probes configuration".data

/-- Message built for a missing dataset source file (engine error 322). -/
def datasetMsg (ds : Str) : Str :=
  "Dataset source \"".data ++ ds
    ++ "\" is a dependancy and needs to be added to rulesets".data

/-- Message built for a missing external hash file (engine error 41). -/
def extFileMsg (f : Str) : Str :=
  "External file \"".data ++ f
    ++ "\" is a dependancy and needs to be added to rulesets".data

/-- `ret['errors'][-1]['line'] = n` on the errors list: update the last
entry's line number (no effect on an empty list). -/
def setLastLine : List ErrEntry → Int → List ErrEntry
  | [], _ => []
  | [ErrEntry.eng e], n => [ErrEntry.eng { e with line := some n }]
  | [ErrEntry.raw m f s], _ => [ErrEntry.raw m f s]
  | e :: rest, n => e :: setLastLine rest n

/-- One iteration of the `for line in error_stream` loop of
`parse_suricata_error` (tests_rules.py lines 174–246).  `Sum.inl st` means
the loop continues with state `st`; `Sum.inr st` means the function returns
`st` immediately (the `JSONDecodeError` branch); `none` models an uncaught
`IndexError` (a 101 message without quotes, a 41 filename without a slash). -/
def processLine (env : ParseEnv) (single : Bool) (error line : Str)
    (st : ParseState) : Option (ParseState ⊕ ParseState) :=
  match env.parseJson line with
  | none =>
    some (Sum.inr { st with
      errors := st.errors ++ [ErrEntry.raw error "raw".data suriSyntaxCheck] })
  | some s0 =>
    let s : EngineRec := { s0 with source := some suriSyntaxCheck }
    let errno := s.error_code
    if single ∧ (errno = 39 ∨ errno = 42) then some (Sum.inl st)
    else if errno = 101 then
      match (splitOnL ['"'] s.message).get? 1 with
      | none => none
      | some varName =>
        if ('$' :: varName) ∈ st.variable_list then some (Sum.inl st)
        else
          some (Sum.inl { st with
            variable_list := st.variable_list ++ ['$' :: varName],
            warnings := st.warnings ++ [{ s with message := customVarMsg varName }] })
    else
      match (if errno = 322 then env.fopenMatch s.message else none) with
      | some datasource =>
        some (Sum.inl { st with
          warnings := st.warnings ++ [{ s with message := datasetMsg datasource }],
          ignore_next := true })
      | none =>
        match (if errno = 41 then env.hashMatch s.message else none) with
        | some fname =>
          let parts := splitOnL ['/'] fname
          if parts.length ≥ 2 then
            let filename := parts.getLastD []
            some (Sum.inl { st with
              files_list := st.files_list ++ [filename],
              warnings := st.warnings ++ [{ s with message := extFileMsg filename }] })
          else none
        | none =>
          if errno = 40 ∨ errno = 43 ∨ errno = 44 then some (Sum.inl st)
          else if errno = 39 then
            if hasSubstr s.message "failed to set up dataset".data ∧ st.ignore_next then
              some (Sum.inl st)
            else if st.ignore_next then some (Sum.inl { st with ignore_next := false })
            else
              let found := st.variable_list.any (fun v => hasSubstr s.message v)
                || st.files_list.any (fun f => env.fileRefMatch f s.message)
              if found then some (Sum.inl st)
              else if hasSubstr s.message "error parsing signature".data then
                let message := s.message
                let s1 := { s with message := (splitOnL " from file".data s.message).headD s.message }
                let s2 := match env.sidSearch line with
                  | some n => { s1 with sid := some n }
                  | none => s1
                match env.atLineSearch message with
                | some line_nb =>
                  some (Sum.inl { st with errors := setLastLine st.errors ((line_nb : Int) - 1) })
                | none => some (Sum.inl { st with errors := st.errors ++ [ErrEntry.eng s2] })
              else some (Sum.inl { st with errors := st.errors ++ [ErrEntry.eng s] })
          else if errno = 42 then
            some (Sum.inl { st with errors := st.errors ++
              [ErrEntry.eng { s with message := (splitOnL " from".data s.message).headD s.message }] })
          else some (Sum.inl { st with errors := st.errors ++ [ErrEntry.eng s] })

/-- The whole `for line in error_stream` loop: threads the state through
`processLine`, stopping early on the `JSONDecodeError` return. -/
def parseLoop (env : ParseEnv) (single : Bool) (error : Str) :
    List Str → ParseState → Option ParseState
  | [], st => some st
  | line :: rest, st =>
    match processLine env single error line st with
    | none => none
    | some (Sum.inr stDone) => some stDone
    | some (Sum.inl st') => parseLoop env single error rest st'

/-- `TestRules.parse_suricata_error(error, single)` (tests_rules.py
lines 165–247).  `none` models an uncaught `IndexError`. -/
def parse_suricata_error (env : ParseEnv) (error : Str) (single : Bool) :
    Option ParseState :=
  parseLoop env single error (stringIOLines error) initParseState

/-- Number of undefined-variable warnings for the variable name `v` in a
warning list. -/
def customCount (v : Str) (ws : List EngineRec) : Nat :=
  ws.countP (fun w => w.message == customVarMsg v)

/-- Invariant tying undefined-variable warnings to the collected
`variable_list`: every warned variable has been collected, and each is
warned at most once. -/
def warnInv (st : ParseState) : Prop :=
  (∀ v, (∃ w ∈ st.warnings, w.message = customVarMsg v) → ('$' :: v) ∈ st.variable_list)
  ∧ ∀ v, customCount v st.warnings ≤ 1

/-- The raw fallback record appended on a JSON decoding failure. -/
def rawEntry (error : Str) : ErrEntry :=
  ErrEntry.raw error "raw".data suriSyntaxCheck

/-! ## Model of the `langserver.py` workspace state -/

/-- Association-list lookup, modelling Python `dict.get`. -/
def alookup {κ α : Type} [DecidableEq κ] : List (κ × α) → κ → Option α
  | [], _ => none
  | (k', v) :: rest, k => if k' = k then some v else alookup rest k

/-- Association-list update, modelling Python `dict.__setitem__`: replace
the value in place if the key is present, append otherwise. -/
def ainsert {κ α : Type} [DecidableEq κ] : List (κ × α) → κ → α → List (κ × α)
  | [], k, v => [(k, v)]
  | (k', v') :: rest, k, v =>
    if k' = k then (k, v) :: rest else (k', v') :: ainsert rest k v

/-- Modelled from the spec: the root Scope tree a (re)parse produces for one
file — represented by the keys of its `global_dict` (the file's top-level
global names, which `serve_onSave` iterates) plus an identifier
distinguishing distinct parse results. -/
structure AST where
  global_dict : List Str
  astId : Nat
deriving DecidableEq, Repr

/-- Modelled from the spec: the `SuricataFile` object of the absent
`parse_signatures` module, restricted to the fields `langserver.py` reads —
`path`, the line-split buffer `contents_split`, the content fingerprint
`hash` (absent before the first disk load) and the parse result `ast`. -/
structure SuricataFile where
  path : String
  contents_split : List Str := []
  hash : Option Nat := none
  ast : Option AST := none
deriving DecidableEq, Repr

/-- A fresh `SuricataFile(filepath, ...)` before any disk load or parse. -/
def mkSuricataFile (filepath : String) : SuricataFile := { path := filepath }

/-- A resolved symbol, restricted to the attributes `langserver.py` reads:
`name`, `FQSN`, the kind of the owning scope (`parentType`, `none` when
`parent` is `None` so that `parent.get_type()` raises), the declaration line
`sline`, the owning file (`astPath` for `file_ast.path`, `astFile` for the
possibly absent `file_ast.file`), the FQSNs returned by
`parent.get_overriden(name)` (`overriden`), whether `link_obj` is the
queried object (`linkIsQueried`, `none` when the attribute access raises),
and `get_type(no_link=True)` (`typeNoLink`). -/
structure Sym where
  name : Str
  fqsn : Str
  parentType : Option Int := none
  sline : Int := 1
  astPath : String := ""
  astFile : Option SuricataFile := none
  overriden : List Str := []
  linkIsQueried : Option Bool := none
  typeNoLink : Int := 0
deriving DecidableEq, Repr

/-- Modelled from the spec: the symbol-kind identifier for types
(`CLASS_TYPE_ID`), fixed by the AST layer. -/
def CLASS_TYPE_ID : Int := 4

/-- Modelled from the spec: the symbol-kind identifier for type-bound
methods (`METH_TYPE_ID`), fixed by the AST layer. -/
def METH_TYPE_ID : Int := 7

/-- The Global Symbol Table `obj_tree`: lowercased name to the ordered
candidate symbols sharing that name. -/
abbrev ObjTree := List (Str × List Sym)

/-- The mutable server state the claims are about: the `workspace` mapping
(file path to `SuricataFile`) and the Global Symbol Table `obj_tree`. -/
structure ServerState where
  workspace : List (String × SuricataFile) := []
  obj_tree : ObjTree := []
deriving DecidableEq, Repr

/-- Modelled from the spec: the file-system and AST-layer operations the
Workspace Index delegates — `os.path.isfile`, `SuricataFile.load_from_disk`
(which refreshes the buffer and fingerprint, or reports an error string)
and `SuricataFile.parse_file` (which builds the scope tree from the buffer;
`none` models a raised parse exception). -/
structure FsEnv where
  isfile : String → Bool
  loadFromDisk : String → Except String (List Str × Nat)
  parseFile : String → List Str → Option AST

/-- `LangServer.update_workspace_file` (langserver.py lines 901–929).
Returns the updated state, the `did_change` flag and the error string.
Notes kept from the source: `load_from_disk` and `parse_file` mutate the
file object in place, so their effects are written back into the workspace
mapping whenever the file was already registered; in the `allow_empty`
branch the source evaluates the undefined name `fortran_ast`, whose
`NameError` is caught by the surrounding handler and reported as
`'Error during parsing'`; calling the function for an unregistered file
without `read_file` dereferences `None` and is caught the same way. -/
def update_workspace_file (env : FsEnv) (st : ServerState) (filepath : String)
    (read_file allow_empty _update_links : Bool) :
    ServerState × Bool × Option String :=
  if read_file then
    match alookup st.workspace filepath with
    | none =>
      if ¬ env.isfile filepath then
        if allow_empty then (st, false, some "Error during parsing")
        else (st, false, some "File does not exist")
      else
        let fo := mkSuricataFile filepath
        match env.loadFromDisk filepath with
        | Except.error e => (st, false, some e)
        | Except.ok (c, h) =>
          let fo1 := { fo with contents_split := c, hash := some h }
          if fo.hash = some h then (st, false, none)
          else
            match env.parseFile filepath c with
            | none => (st, false, some "Error during parsing")
            | some ast =>
              ({ st with
              workspace := ainsert st.workspace filepath ({ fo1 with ast := some ast }) },
               true, none)
    | some fo =>
      match env.loadFromDisk filepath with
      | Except.error e => (st, false, some e)
      | Except.ok (c, h) =>
        let fo1 := { fo with contents_split := c, hash := some h }
        let st1 := { st with workspace := ainsert st.workspace filepath fo1 }
        if fo.hash = some h then (st1, false, none)
        else
          match env.parseFile filepath c with
          | none => (st1, false, some "Error during parsing")
          | some ast =>
            ({ st1 with
                workspace := ainsert st1.workspace filepath ({ fo1 with ast := some ast }) },
             true, none)
  else
    match alookup st.workspace filepath with
    | none => (st, false, some "Error during parsing")
    | some fo =>
      match env.parseFile filepath fo.contents_split with
      | none => (st, false, some "Error during parsing")
      | some ast =>
        ({ st with
            workspace := ainsert st.workspace filepath ({ fo with ast := some ast }) },
         true, none)

/-- The message posted when a save-triggered update fails. -/
def saveFailMsg (filepath err : String) : String :=
  "Save request failed for file \"" ++ filepath ++ "\": " ++ err

/-- `LangServer.serve_onSave` (langserver.py lines 878–899), with the
request already unpacked into `filepath`, `did_open`, `did_close`.  Returns
the new state and the posted messages (type, text).  The diagnostics
notification sent at the end is transport output and is not modelled. -/
def serve_onSave (env : FsEnv) (st : ServerState) (filepath : String)
    (did_open did_close : Bool) : ServerState × List (Int × String) :=
  if did_close ∧ ¬ env.isfile filepath then
    match alookup st.workspace filepath with
    | none => (st, [])
    | some fo =>
      match fo.ast with
      | none => (st, [])
      | some ast =>
        ({ st with
            obj_tree := st.obj_tree.filter (fun kv => !ast.global_dict.contains kv.1) },
         [])
  else
    match update_workspace_file env st filepath true did_open false with
    | (st', _, some e) => (st', [(1, saveFailMsg filepath e)])
    | (st', _, none) => (st', [])

/-- `init_file` (langserver.py lines 14–26): load one file from disk and
parse it, returning either the populated file object or the error string. -/
def init_file (env : FsEnv) (filepath : String) : Except String SuricataFile :=
  match env.loadFromDisk filepath with
  | Except.error e => Except.error e
  | Except.ok (c, h) =>
    match env.parseFile filepath c with
    | none => Except.error "Error during parsing"
    | some ast =>
      Except.ok { path := filepath, contents_split := c, hash := some h, ast := some ast }

/-- The per-file warning recorded when initialization fails. -/
def initFailMsg (path err : String) : String :=
  "Initialization failed for file \"" ++ path ++ "\": " ++ err

/-- One step of the `workspace_init` merge loop (langserver.py
lines 958–963): a worker failure is recorded as a per-file warning, a
worker success is stored in the workspace. -/
def initStep (env : FsEnv) (acc : ServerState × List (Int × String))
    (path : String) : ServerState × List (Int × String) :=
  match init_file env path with
  | Except.error e => (acc.1, acc.2 ++ [(1, initFailMsg path e)])
  | Except.ok fo =>
    ({ acc.1 with workspace := ainsert acc.1.workspace path fo }, acc.2)

/-- The sequential merge loop of `LangServer.workspace_init` (langserver.py
lines 948–963) over an already-discovered file list.  The parallel pool
computes `init_file` per path with no shared state, so the merge is the
deterministic fold over the path list. -/
def workspace_init (env : FsEnv) (st : ServerState) (file_list : List String) :
    ServerState × List (Int × String) :=
  file_list.foldl (initStep env) (st, [])

/-! ## Model of the Definition Resolver (`LangServer.get_definition`) -/

/-- The test guarding the declaration-site correction in `get_definition`:
`line_prefix.lstrip().lower().startswith('procedure') and
(line_prefix.count("=>") > 0)`. -/
def procBindCond (lp : Str) : Bool :=
  isPrefixOfL "procedure".data (lowerL (lstripL lp)) && decide (0 < countSub lp "=>".data)

/-- Modelled from the spec: the AST-layer facilities `get_definition`
delegates to, over an abstract Scope type `σ` — the line-assembly facility
(`getCodeLine` for `file.get_code_line(line, forward=False,
strip_comment=True)` and `getLinePfx` for `get_line_prefix`), the
access-chain extraction (`getVarStack` for `get_var_stack` and `expandName`
for `expand_name`, `none` modelling a raised exception caught by the
surrounding `try`), the scope tree (`getInnerScope`, `scopeType`,
`scopeParent`), the type-tree climb (`climbTypeTree`), the scope-chain
lookup (`findInScope`, receiving the possibly absent scope exactly as the
source passes it), the declaration-statement test (`typeDefMatch` for
`TYPE_DEF_REGEX.match`) and the fixed intrinsic table (`intrinsicFuns`). -/
structure DefEnv (σ : Type) where
  getCodeLine : Nat → List Str × Str
  getLinePfx : List Str → Str → Nat → Option Str
  getVarStack : Str → Option (List Str)
  expandName : Str → Nat → Option Str
  getInnerScope : Nat → Option σ
  climbTypeTree : List Str → Option σ → ObjTree → Option σ
  scopeType : σ → Int
  scopeParent : σ → Option σ
  typeDefMatch : Str → Bool
  findInScope : Option σ → Str → ObjTree → Option Sym
  intrinsicFuns : List Sym

/-- The scope-chain lookup step of `get_definition` (langserver.py
lines 390–396): apply the declaration-site correction when the enclosing
scope is a type and the access is not a member access, then run
`find_in_scope`. -/
def scopeLookup {σ : Type} (env : DefEnv σ) (obj_tree : ObjTree)
    (curr_scope : Option σ) (is_member : Bool) (lp def_name : Str) : Option Sym :=
  match curr_scope with
  | none => none
  | some cs =>
    let scope2 : Option σ :=
      if env.scopeType cs = CLASS_TYPE_ID ∧ ¬ is_member ∧
          (procBindCond lp ∨ env.typeDefMatch lp) then
        env.scopeParent cs
      else some cs
    env.findInScope scope2 def_name obj_tree

/-- The global fallback of `get_definition` (langserver.py lines 398–406):
the Global Symbol Table by lowercased name, then the intrinsic table.  The
source reads `obj_tree[key][0]`; the table never stores an empty candidate
list (spec section 3), so the head is taken directly. -/
def globalFallback (obj_tree : ObjTree) (intrinsicFuns : List Sym)
    (def_name : Str) : Option Sym :=
  let key := lowerL def_name
  match alookup obj_tree key with
  | some objs => objs.head?
  | none => intrinsicFuns.find? (fun o => lowerL o.name == key)

/-- `LangServer.get_definition` (langserver.py lines 364–409) for one file,
over the file's AST-layer facilities `env` and the Global Symbol Table. -/
def get_definition {σ : Type} (env : DefEnv σ) (obj_tree : ObjTree)
    (def_line def_char : Nat) : Option Sym :=
  let pc := env.getCodeLine def_line
  match env.getLinePfx pc.1 pc.2 def_char with
  | none => none
  | some lp =>
    match env.getVarStack lp with
    | none => none
    | some var_stack =>
      let is_member : Bool := decide (1 < var_stack.length)
      match env.expandName pc.2 def_char with
      | none => none
      | some def_name =>
        if def_name = [] then none
        else
          let curr_scope0 := env.getInnerScope (def_line + 1)
          let climbed : Option (Option σ) :=
            if is_member then
              match env.climbTypeTree var_stack curr_scope0 obj_tree with
              | none => none
              | some ts => some (some ts)
            else some curr_scope0
          match climbed with
          | none => none
          | some curr_scope =>
            match scopeLookup env obj_tree curr_scope is_member lp def_name with
            | some v => some v
            | none =>
              if is_member then none
              else globalFallback obj_tree env.intrinsicFuns def_name

/-- A definition location answered to the client: target URI and the
word range on the declaration line. -/
structure DefLocation where
  uri : String
  line : Int
  schar : Int
  echar : Int
deriving DecidableEq, Repr

/-- `LangServer.serve_definition` (langserver.py lines 601–629) with the
request already unpacked; `envOf` gives each file's AST-layer facilities,
`findWord` models `find_word_in_code_line` and `pathToUri` the transport
path encoding.  The handler only reads the server state, which is returned
unchanged alongside the response. -/
def serve_definition {σ : Type} (envOf : String → DefEnv σ)
    (findWord : String → Int → Str → Int × Int × Int) (pathToUri : String → String)
    (st : ServerState) (path : String) (def_line def_char : Nat) :
    ServerState × Option DefLocation :=
  match alookup st.workspace path with
  | none => (st, none)
  | some _ =>
    match get_definition (envOf path) st.obj_tree def_line def_char with
    | none => (st, none)
    | some var_obj =>
      match var_obj.astFile with
      | none => (st, none)
      | some var_file =>
        let r := findWord var_file.path (var_obj.sline - 1) var_obj.name
        let sline := r.1
        let schar := if r.2.1 < 0 then 0 else r.2.1
        let echar := if r.2.1 < 0 then 0 else r.2.2
        (st, some { uri := pathToUri var_file.path, line := sline,
                    schar := schar, echar := echar })

/-! ## Model of the Signature Resolver (`LangServer.serve_signature`) -/

/-- The local `check_optional(arg, params)` of `serve_signature`
(langserver.py lines 420–428): if `arg` has the form `name=...`, the index
of the first parameter whose leading label token (before `=`) equals
`name` case-insensitively. -/
def check_optional (arg : Str) (params : List Str) : Option Nat :=
  let opt_split := splitOnL ['='] arg
  if 1 < opt_split.length then
    let opt_arg := lowerL (trimL (opt_split.headD []))
    findIdxL (fun p => lowerL ((splitOnL ['='] p).headD []) == opt_arg) params
  else none

/-- The active-parameter computation of `serve_signature` (langserver.py
lines 492–502): default to the last argument's index, corrected by a
keyword-argument match on the last or second-to-last argument. -/
def activeParamNum (arg_strings : List Str) (params : List Str) : Int :=
  let param_num : Int := (arg_strings.length : Int) - 1
  match check_optional (arg_strings.getLastD []) params with
  | some i => (i : Int)
  | none =>
    if 1 < arg_strings.length then
      match check_optional (arg_strings.getD (arg_strings.length - 2) []) params with
      | some i => (i : Int) + 1
      | none => param_num
    else param_num

/-- Modelled from the spec: the AST-layer facilities `serve_signature`
delegates to — the scope-statement tests (`scopeDefMatch`, `endMatch`), the
parenthesis-group extraction `get_sub_name` (`getSubName`, returning the
callee text, raw argument strings and the callee start column; `none`
models a raised exception caught by the surrounding `try`), the statement
keyword test (`intStmntMatch` for `INT_STMNT_REGEX`), the keyword table
(`intrinsicKeywords` for `get_intrinsic_keywords`), and the resolved
symbol's canonical signature (`getSignature`, giving the optional label,
optional documentation and parameter labels). -/
structure SigEnv (σ : Type) where
  getCodeLine : Nat → List Str × Str
  getLinePfx : List Str → Str → Nat → Option Str
  scopeDefMatch : Str → Bool
  endMatch : Str → Bool
  getSubName : Str → Option (Str × List Str × Nat)
  getVarStack : Str → Option (List Str)
  getInnerScope : Nat → Option σ
  climbTypeTree : List Str → Option σ → ObjTree → Option σ
  findInScope : Option σ → Str → ObjTree → Option Sym
  intStmntMatch : Str → Bool
  intrinsicKeywords : List Sym
  intrinsicFuns : List Sym
  getSignature : Sym → Option Str × Option Str × List Str

/-- A signature-help response: label, optional documentation, parameter
labels and the active parameter index. -/
structure SigResult where
  label : Str
  docStr : Option Str
  params : List Str
  activeParameter : Int
deriving DecidableEq, Repr

/-- `LangServer.serve_signature` (langserver.py lines 411–513) with the
request already unpacked.  Uncaught `IndexError` sites of the source (an
empty `var_stack` at `var_stack[-1]`, an empty argument list at
`arg_strings[-1]`) are collapsed into the absent result; as in
`globalFallback`, `obj_tree[key][0]` is read from a never-empty candidate
list. -/
def serve_signature {σ : Type} (env : SigEnv σ) (obj_tree : ObjTree)
    (sig_line sig_char : Nat) : Option SigResult :=
  let pc := env.getCodeLine sig_line
  match env.getLinePfx pc.1 pc.2 sig_char with
  | none => none
  | some lp =>
    if env.scopeDefMatch pc.2 ∨ env.endMatch pc.2 then none
    else
      match env.getSubName lp with
      | none => none
      | some (sub0, arg_strings, sub_end) =>
        match env.getVarStack sub0 with
        | none => none
        | some var_stack =>
          let is_member : Bool := decide (1 < var_stack.length)
          let curr_scope0 := env.getInnerScope (sig_line + 1)
          let curr_scope : Option σ :=
            if is_member then
              match env.climbTypeTree var_stack curr_scope0 obj_tree with
              | none => none
              | some ts => some ts
            else curr_scope0
          match var_stack.getLast? with
          | none => none
          | some sub_name =>
            let var_obj0 : Option Sym :=
              match curr_scope with
              | none => none
              | some cs => env.findInScope (some cs) sub_name obj_tree
            let var_obj1 : Option Sym :=
              match var_obj0 with
              | some v => some v
              | none =>
                let key := lowerL sub_name
                match alookup obj_tree key with
                | some objs => objs.head?
                | none => env.intrinsicFuns.find? (fun o => lowerL o.name == key)
            let var_obj2 : Option Sym :=
              match var_obj1 with
              | some v => some v
              | none =>
                if env.intStmntMatch (lp.take sub_end) then
                  env.intrinsicKeywords.find?
                    (fun o => lowerL o.name == lowerL sub_name)
                else none
            match var_obj2 with
            | none => none
            | some vo =>
              match env.getSignature vo with
              | (none, _, _) => none
              | (some label, doc?, params) =>
                match arg_strings.getLast? with
                | none => none
                | some _ =>
                  some { label := label, docStr := doc?, params := params,
                         activeParameter := activeParamNum arg_strings params }

/-! ## Model of the Reference Finder (`LangServer.get_all_references`) -/

/-- Word characters of the regular-expression class `\w` (ASCII). -/
def isWordChar (c : Char) : Bool := c.isAlphanum || c == '_'

/-- Case-insensitive literal match of `name` at position `p` of `l`
(the capture group of `NAME_REGEX`, compiled with `re.I` over a lowercased
identifier). -/
def nameMatchAt (l name : Str) (p : Nat) : Bool :=
  decide (p + name.length ≤ l.length) && (lowerL ((l.drop p).take name.length) == name)

/-- The suffix `(?:\W|$)` of `NAME_REGEX` after a group matched at
`gs0`: consume one non-word character, or anchor at the end of the line.
Returns `(group_start, group_end, match_end)`. -/
def suffixCheck (l name : Str) (gs0 : Nat) : Option (Nat × Nat × Nat) :=
  let ge := gs0 + name.length
  match l.get? ge with
  | some c2 => if isWordChar c2 then none else some (gs0, ge, ge + 1)
  | none => some (gs0, ge, ge)

/-- The second alternative `^` of the prefix `(?:\W|^)` of `NAME_REGEX`,
tried when the `\W` alternative fails: anchor at the line start with the
group at position 0. -/
def tryMatchB (l name : Str) (p : Nat) : Option (Nat × Nat × Nat) :=
  if p = 0 ∧ nameMatchAt l name 0 then suffixCheck l name 0 else none

/-- One attempt of `NAME_REGEX = (?:\W|^)(name)(?:\W|$)` at try position
`p`: the first alternative consumes a non-word character before the group;
on any failure of that alternative the engine backtracks to the `^`
alternative. -/
def tryMatchAt (l name : Str) (p : Nat) : Option (Nat × Nat × Nat) :=
  match l.get? p with
  | some c =>
    if isWordChar c then tryMatchB l name p
    else if nameMatchAt l name (p + 1) then
      match suffixCheck l name (p + 1) with
      | some r => some r
      | none => tryMatchB l name p
    else tryMatchB l name p
  | none => tryMatchB l name p

/-- Fuelled worker for `firstMatchFrom`. -/
def firstMatchAux (l name : Str) : Nat → Nat → Option (Nat × Nat × Nat)
  | 0, _ => none
  | fuel + 1, p =>
    if p ≤ l.length then
      match tryMatchAt l name p with
      | some r => some r
      | none => firstMatchAux l name fuel (p + 1)
    else none

/-- Leftmost `NAME_REGEX` match at or after try position `p`. -/
def firstMatchFrom (l name : Str) (p : Nat) : Option (Nat × Nat × Nat) :=
  firstMatchAux l name (l.length + 1 - p) p

/-- Fuelled scanner behind `findIter`; each step emits one match and
resumes at the match end (advancing at least one position). -/
def findIterAux (l name : Str) : Nat → Nat → List (Nat × Nat)
  | 0, _ => []
  | fuel + 1, q =>
    match firstMatchFrom l name q with
    | none => []
    | some (gs, ge, me) =>
      (gs, ge) :: findIterAux l name fuel (if me ≤ q then q + 1 else me)

/-- `NAME_REGEX.finditer(line)`: the capture-group spans of the
non-overlapping left-to-right whole-word matches of `name`. -/
def findIter (l name : Str) : List (Nat × Nat) := findIterAux l name (l.length + 1) 0

/-- A whole-word, case-insensitive occurrence of `name` at span
`[gs, ge)` of the line `l`: the span covers exactly `name` up to case, and
both span boundaries touch a non-word character or an end of the line. -/
def wholeWordAt (l name : Str) (gs ge : Nat) : Prop :=
  ge = gs + name.length ∧ ge ≤ l.length ∧
  lowerL ((l.drop gs).take name.length) = name ∧
  (gs = 0 ∨ ∃ c, l.get? (gs - 1) = some c ∧ isWordChar c = false) ∧
  (ge = l.length ∨ ∃ c, l.get? ge = some c ∧ isWordChar c = false)

/-- How an occurrence was recorded by `get_all_references`: through the
first branch (`exact`: FQSN equality or override-cache hit) or through the
type-member branch (override walk or implicit-binding link). -/
inductive RefClass where
  | exact
  | memberMatch
deriving DecidableEq, Repr

/-- One recorded occurrence `[i, match.start(1), match.end(1)]`, annotated
with ghost data for verification: the branch that recorded it (`cls`), the
resolved target's FQSN (`targetFqsn`) and the override cache as it stood
when the occurrence was examined (`cacheBefore`).  The source stores only
the triple `(line, sCol, eCol)`. -/
structure Occ where
  line : Nat
  sCol : Nat
  eCol : Nat
  cls : RefClass
  targetFqsn : Str
  cacheBefore : List Str
deriving DecidableEq, Repr

/-- The projection of a recorded occurrence onto the data the source
actually stores. -/
def occTriple (o : Occ) : Nat × Nat × Nat := (o.line, o.sCol, o.eCol)

/-- Modelled from the spec: the collaborators of the Reference Finder and
Rename Engine — per-file comment stripping (`stripComment`), the Definition
Resolver invoked at each occurrence (`getDef`, abstracting
`self.get_definition(file_obj, line, char)` by file path), the forward
line-assembly facility used by the implicit-binding correction
(`getCodeLineFwd` for `file.get_code_line(line, backward=False,
strip_comment=True)`, returning the possibly absent current line and the
following continuation lines) and the transport path encoding
(`pathToUri`). -/
structure RefEnv where
  stripComment : String → Str → Str
  getDef : String → Nat → Nat → Option Sym
  getCodeLineFwd : String → Int → Option Str × List Str
  pathToUri : String → String

/-- The `for match in NAME_REGEX.finditer(line)` loop of
`get_all_references` (langserver.py lines 537–559) for one line: resolve
each occurrence, classify it against the queried symbol and thread the
override cache.  `none` models the uncaught `AttributeError` raised when a
resolved target has no parent scope. -/
def processMatches (env : RefEnv) (q : Sym) (def_name : Str) (type_mem : Bool)
    (path : String) (i : Nat) (sl : Str) :
    List (Nat × Nat) → List Str → Option (List Occ × List Sym × List Str)
  | [], cache => some ([], [], cache)
  | (gs, ge) :: ms, cache =>
    match env.getDef path i (gs + 1) with
    | none => processMatches env q def_name type_mem path i sl ms cache
    | some v =>
      if q.fqsn = v.fqsn ∨ v.fqsn ∈ cache then
        match processMatches env q def_name type_mem path i sl ms cache with
        | none => none
        | some (os, rs, c') =>
          some ({ line := i, sCol := gs, eCol := ge, cls := RefClass.exact,
                  targetFqsn := v.fqsn, cacheBefore := cache } :: os, rs, c')
      else
        match v.parentType with
        | none => none
        | some pt =>
          if pt = CLASS_TYPE_ID then
            let ov : Bool := type_mem && decide (q.fqsn ∈ v.overriden)
            let cache1 := if ov then cache ++ [v.fqsn] else cache
            let impl : Bool :=
              decide (v.sline - 1 = (i : Int)) && decide (v.astPath = path) &&
                decide (countSub sl "=>".data = 0) && (v.linkIsQueried == some true)
            let rsAdd := if impl then [v] else []
            match processMatches env q def_name type_mem path i sl ms cache1 with
            | none => none
            | some (os, rs, c') =>
              if ov || impl then
                some ({ line := i, sCol := gs, eCol := ge, cls := RefClass.memberMatch,
                        targetFqsn := v.fqsn, cacheBefore := cache } :: os,
                      rsAdd ++ rs, c')
              else some (os, rsAdd ++ rs, c')
          else
            processMatches env q def_name type_mem path i sl ms cache

/-- The per-file line loop of `get_all_references` (langserver.py
lines 530–559): skip empty lines, strip trailing comments, skip
comment-only lines, then scan the stripped line. -/
def scanLines (env : RefEnv) (q : Sym) (def_name : Str) (type_mem : Bool)
    (path : String) : Nat → List Str → List Str →
    Option (List Occ × List Sym × List Str)
  | _, [], cache => some ([], [], cache)
  | i, line :: rest, cache =>
    if line = [] then scanLines env q def_name type_mem path (i + 1) rest cache
    else
      let sl := env.stripComment path line
      if sl = [] ∨ sl.head? = some '#' then
        scanLines env q def_name type_mem path (i + 1) rest cache
      else
        match processMatches env q def_name type_mem path i sl (findIter sl def_name) cache with
        | none => none
        | some (os, rs, cache') =>
          match scanLines env q def_name type_mem path (i + 1) rest cache' with
          | none => none
          | some (os', rs', cache'') => some (os ++ os', rs ++ rs', cache'')

/-- The file loop of `get_all_references` (langserver.py lines 527–561):
scan each file of the search set, keeping only files with occurrences. -/
def scanFiles (env : RefEnv) (q : Sym) (def_name : Str) (type_mem : Bool) :
    List (String × List Str) → List Str →
    Option (List (String × List Occ) × List Sym)
  | [], _ => some ([], [])
  | (path, contents) :: fs, cache =>
    match scanLines env q def_name type_mem path 0 contents cache with
    | none => none
    | some (os, rs, cache') =>
      match scanFiles env q def_name type_mem fs cache' with
      | none => none
      | some (refs, rs') =>
        some ((if os = [] then [] else [(path, os)]) ++ refs, rs ++ rs')

/-- `LangServer.get_all_references(def_obj, type_mem, file_obj)`
(langserver.py lines 515–562) over an explicit search set `files` (the
whole workspace, or the single restricted file); the override cache starts
empty for every call. -/
def get_all_references (env : RefEnv) (files : List (String × List Str))
    (q : Sym) (type_mem : Bool) : Option (List (String × List Occ) × List Sym) :=
  scanFiles env q (lowerL q.name) type_mem files []

/-! ## Model of the Rename Engine (`LangServer.serve_rename`) -/

/-- One text edit of a rename response. -/
structure TextEdit where
  line : Nat
  sCol : Nat
  eCol : Nat
  newText : Str
deriving DecidableEq, Repr

/-- The warning posted when a rename finds no usages. -/
def renameFailedMsg : String := "Rename failed: No usages found to rename"

/-- The search-set determination of `serve_rename` (langserver.py
lines 736–745): global accessibility and type membership.  The outer
`none` models the `AttributeError` raised when the symbol has no parent;
the inner `none` is the early `return None` when the restricted file is
absent; otherwise the search set and the `type_mem` flag. -/
def renameSearchSet (st : ServerState) (d : Sym) :
    Option (Option (List (String × List Str) × Bool)) :=
  let wsFiles := st.workspace.map (fun kv => (kv.1, kv.2.contents_split))
  if 2 < countSub d.fqsn [':'] then
    match d.parentType with
    | none => none
    | some pt =>
      if pt = CLASS_TYPE_ID then some (some (wsFiles, true))
      else
        match d.astFile with
        | none => some none
        | some rf => some (some ([(rf.path, rf.contents_split)], false))
  else some (some (wsFiles, false))

/-- The implicit-binding correction of `serve_rename` (langserver.py
lines 764–777): determine the symbol whose declaration line must be
replaced by an explicit binding statement, and that statement's text.
`none` models the `AttributeError` raised when the declaration file is
absent; `some none` means no correction applies. -/
def renameBindObj (env : RefEnv) (d : Sym) (ref_objs : List Sym) (newName : Str) :
    Option (Option (Sym × Str)) :=
  if d.typeNoLink = METH_TYPE_ID then
    match d.astFile with
    | none => none
    | some f =>
      let cl := env.getCodeLineFwd f.path (d.sline - 1)
      match cl.1 with
      | none => some none
      | some curr =>
        let full := curr ++ cl.2.foldl (· ++ ·) []
        if hasSubstr full "=>".data then some none
        else some (some (d, newName ++ " => ".data ++ d.name))
  else
    match ref_objs.head? with
    | some r0 =>
      if r0.typeNoLink = METH_TYPE_ID then
        some (some (r0, r0.name ++ " => ".data ++ newName))
      else some none
    | none => some none

/-- The edit-construction tail of `serve_rename` (langserver.py
lines 750–784), after the reference search succeeded with a non-empty
result: build one replacement per occurrence and apply the
implicit-binding correction.  `none` models an uncaught exception
(`AttributeError` on a parent-less binding symbol, `KeyError` when the
binding file produced no edits). -/
def renameChanges (env : RefEnv) (d : Sym) (allRefs : List (String × List Occ))
    (ref_objs : List Sym) (newName : Str) :
    Option (List (String × List TextEdit)) :=
  let changes : List (String × List TextEdit) :=
    allRefs.map (fun pr =>
      (env.pathToUri pr.1,
       pr.2.map (fun o =>
         { line := o.line, sCol := o.sCol, eCol := o.eCol, newText := newName })))
  match renameBindObj env d ref_objs newName with
  | none => none
  | some none => some changes
  | some (some (bo, bchange)) =>
    match bo.astFile with
    | none => none
    | some bf =>
      let def_uri := env.pathToUri bf.path
      match alookup changes def_uri with
      | none => none
      | some edits =>
        let edits' := edits.map (fun e =>
          if (e.line : Int) = bo.sline - 1 then { e with newText := bchange } else e)
        some (ainsert changes def_uri edits')

/-- `LangServer.serve_rename` (langserver.py lines 722–784) with the
request already unpacked.  The result is `none` for an uncaught exception,
otherwise the unchanged server state, the optional edit set and the posted
messages.  The handler only reads the server state. -/
def serve_rename (env : RefEnv) (st : ServerState) (path : String)
    (def_line def_char : Nat) (newName : Str) :
    Option (ServerState × Option (List (String × List TextEdit)) × List (Int × String)) :=
  match alookup st.workspace path with
  | none => some (st, none, [])
  | some _ =>
    match env.getDef path def_line def_char with
    | none => some (st, none, [])
    | some d =>
      match renameSearchSet st d with
      | none => none
      | some none => some (st, none, [])
      | some (some (files, type_mem)) =>
        match get_all_references env files d type_mem with
        | none => none
        | some (allRefs, ref_objs) =>
          if allRefs = [] then some (st, none, [(2, renameFailedMsg)])
          else
            match renameChanges env d allRefs ref_objs newName with
            | none => none
            | some changes => some (st, some changes, [])

/-! ## Concrete instances used by witnesses and counterexamples -/

def c9Line1 : Str :=
  "\x7b\"engine\": \x7b\"error_code\": 1, \"message\": \"bad config\"\x7d\x7d\n".data

def c9Line2 : Str := "notjson".data

def c9Error : Str := c9Line1 ++ c9Line2

def c9Env : ParseEnv :=
  { parseJson := fun l =>
      if l = c9Line1 then some { error_code := 1, message := "bad config".data }
      else none,
    fopenMatch := fun _ => none, hashMatch := fun _ => none,
    sidSearch := fun _ => none, atLineSearch := fun _ => none,
    fileRefMatch := fun _ _ => false }

def c9StPre : ParseState :=
  { errors := [ErrEntry.eng
      { error_code := 1, message := "bad config".data, source := some suriSyntaxCheck }] }

def c10Line1 : Str :=
  "\x7b\"engine\": \x7b\"error_code\": 101, \"message\": \"Variable \\\"MYVAR\\\" is unknown\"\x7d\x7d\n".data

def c10Line2 : Str :=
  "\x7b\"engine\": \x7b\"error_code\": 101, \"message\": \"Variable \\\"MYVAR\\\" is still unknown\"\x7d\x7d".data

def c10LineB : Str :=
  "\x7b\"engine\": \x7b\"error_code\": 39, \"message\": \"error parsing signature, variable $MYVAR unknown\"\x7d\x7d".data

def c10Error : Str := c10Line1 ++ c10Line2

def c10RecB : EngineRec :=
  { error_code := 39, message := "error parsing signature, variable $MYVAR unknown".data }

def c10Env : ParseEnv :=
  { parseJson := fun l =>
      if l = c10Line1 then
        some { error_code := 101, message := "Variable \"MYVAR\" is unknown".data }
      else if l = c10Line2 then
        some { error_code := 101, message := "Variable \"MYVAR\" is still unknown".data }
      else if l = c10LineB then some c10RecB
      else none,
    fopenMatch := fun _ => none, hashMatch := fun _ => none,
    sidSearch := fun _ => none, atLineSearch := fun _ => none,
    fileRefMatch := fun _ _ => false }

def c10State : ParseState :=
  { warnings := [{ error_code := 101, message := customVarMsg "MYVAR".data,
                   source := some suriSyntaxCheck }],
    variable_list := ["$MYVAR".data] }

def c10StB : ParseState := { variable_list := ["$MYVAR".data] }

def c2Sym : Sym := { name := "alpha".data, fqsn := "alpha".data }

def c2Ast : AST := { global_dict := ["alpha".data], astId := 0 }

def c2File : SuricataFile := { path := "f.rules", ast := some c2Ast }

def c2State : ServerState :=
  { workspace := [("f.rules", c2File)], obj_tree := [("alpha".data, [c2Sym])] }

def c2Env : FsEnv :=
  { isfile := fun _ => false,
    loadFromDisk := fun _ => Except.error "File could not be read",
    parseFile := fun _ _ => none }

def c3Ast : AST := { global_dict := ["gname".data], astId := 1 }

def c3Env : FsEnv :=
  { isfile := fun _ => true,
    loadFromDisk := fun _ => Except.ok ([], 7),
    parseFile := fun _ _ => some c3Ast }

def c3File : SuricataFile :=
  { path := "g.rules", contents_split := [], hash := some 7, ast := some c3Ast }

def c4Ast : AST := { global_dict := ["beta".data], astId := 2 }

def c4File : SuricataFile :=
  { path := "h.rules", contents_split := ["x".data], hash := some 5, ast := some c4Ast }

def c4Env : FsEnv :=
  { isfile := fun _ => true,
    loadFromDisk := fun _ => Except.ok (["x".data], 5),
    parseFile := fun _ _ => none }

def c4Sym : Sym := { name := "beta".data, fqsn := "beta".data }

def c4State : ServerState :=
  { workspace := [("h.rules", c4File)], obj_tree := [("beta".data, [c4Sym])] }

def c5Env : DefEnv Unit :=
  { getCodeLine := fun _ => ([], "a.b".data),
    getLinePfx := fun _ _ _ => some "a.b".data,
    getVarStack := fun _ => some ["a".data, "b".data],
    expandName := fun _ _ => some "b".data,
    getInnerScope := fun _ => some (),
    climbTypeTree := fun _ _ _ => none,
    scopeType := fun _ => 0,
    scopeParent := fun _ => some (),
    typeDefMatch := fun _ => false,
    findInScope := fun _ _ _ => none,
    intrinsicFuns := [{ name := "b".data, fqsn := "b".data }] }

def c8Env : DefEnv Unit :=
  { getCodeLine := fun _ => ([], []),
    getLinePfx := fun _ _ _ => some [],
    getVarStack := fun _ => some [[]],
    expandName := fun _ _ => some [],
    getInnerScope := fun _ => none,
    climbTypeTree := fun _ _ _ => none,
    scopeType := fun _ => 0,
    scopeParent := fun _ => none,
    typeDefMatch := fun _ => false,
    findInScope := fun _ _ _ => none,
    intrinsicFuns := [] }

def c8State : ServerState := {}

def c6Sym : Sym := { name := "f".data, fqsn := "f".data }

def c6Env : SigEnv Unit :=
  { getCodeLine := fun _ => ([], "f(a, b=1".data),
    getLinePfx := fun _ _ _ => some "f(a, b=1".data,
    scopeDefMatch := fun _ => false,
    endMatch := fun _ => false,
    getSubName := fun _ => some ("f".data, ["a".data, " b=1".data], 0),
    getVarStack := fun _ => some ["f".data],
    getInnerScope := fun _ => none,
    climbTypeTree := fun _ _ _ => none,
    findInScope := fun _ _ _ => none,
    intStmntMatch := fun _ => false,
    intrinsicKeywords := [],
    intrinsicFuns := [c6Sym],
    getSignature := fun _ => (some "f(a, b)".data, none, ["a".data, "b".data]) }

def c6Res : SigResult :=
  { label := "f(a, b)".data, docStr := none, params := ["a".data, "b".data],
    activeParameter := 1 }

def c1Target : Sym :=
  { name := "beta".data, fqsn := "beta".data, parentType := some 0 }

def c1Q : Sym := { name := "Beta".data, fqsn := "beta".data }

def c1Env : RefEnv :=
  { stripComment := fun _ l => l,
    getDef := fun _ _ _ => some c1Target,
    getCodeLineFwd := fun _ _ => (none, []),
    pathToUri := id }

def c1Files : List (String × List Str) := [("w.rules", ["alpha BETA".data])]

def c1Occ : Occ :=
  { line := 0, sCol := 6, eCol := 10, cls := RefClass.exact,
    targetFqsn := "beta".data, cacheBefore := [] }

def c7File : SuricataFile := { path := "r.rules", contents_split := [] }

def c7State : ServerState := { workspace := [("r.rules", c7File)] }

def c7Sym : Sym := { name := "x".data, fqsn := "x".data }

def c7Env : RefEnv :=
  { stripComment := fun _ l => l,
    getDef := fun _ _ _ => some c7Sym,
    getCodeLineFwd := fun _ _ => (none, []),
    pathToUri := id }

/-! ## Proofs

Helper lemmas first, then one theorem per claim (with its witness or
counterexample where required).
-/

theorem customVarMsg_inj {v w : Str} (h : customVarMsg v = customVarMsg w) : v = w := by
  unfold customVarMsg at h
  rw [List.append_assoc, List.append_assoc] at h
  exact List.append_cancel_right (List.append_cancel_left h)

theorem customVarMsg_head (v : Str) : (customVarMsg v).head? = some 'C' := by
  unfold customVarMsg
  rw [List.append_assoc, List.head?_append_of_ne_nil]
  · decide
  · decide

theorem datasetMsg_head (d : Str) : (datasetMsg d).head? = some 'D' := by
  unfold datasetMsg
  rw [List.append_assoc, List.head?_append_of_ne_nil]
  · decide
  · decide

theorem extFileMsg_head (f : Str) : (extFileMsg f).head? = some 'E' := by
  unfold extFileMsg
  rw [List.append_assoc, List.head?_append_of_ne_nil]
  · decide
  · decide

theorem datasetMsg_ne_customVarMsg (d v : Str) : datasetMsg d ≠ customVarMsg v := by
  intro h
  have h1 := customVarMsg_head v
  rw [← h, datasetMsg_head] at h1
  exact absurd h1 (by decide)

theorem extFileMsg_ne_customVarMsg (f v : Str) : extFileMsg f ≠ customVarMsg v := by
  intro h
  have h1 := customVarMsg_head v
  rw [← h, extFileMsg_head] at h1
  exact absurd h1 (by decide)

set_option maxHeartbeats 1000000 in
theorem processLine_shape (env : ParseEnv) (single : Bool) (error line : Str)
    (st : ParseState) (r : ParseState ⊕ ParseState)
    (h : processLine env single error line st = some r) :
    ((Sum.elim id id r).warnings = st.warnings ∧
      (Sum.elim id id r).variable_list = st.variable_list)
  ∨ (∃ w, (∃ ds, w.message = datasetMsg ds) ∧
      (Sum.elim id id r).warnings = st.warnings ++ [w] ∧
      (Sum.elim id id r).variable_list = st.variable_list)
  ∨ (∃ w, (∃ f, w.message = extFileMsg f) ∧
      (Sum.elim id id r).warnings = st.warnings ++ [w] ∧
      (Sum.elim id id r).variable_list = st.variable_list)
  ∨ (∃ w v, w.message = customVarMsg v ∧ ('$' :: v) ∉ st.variable_list ∧
      (Sum.elim id id r).warnings = st.warnings ++ [w] ∧
      (Sum.elim id id r).variable_list = st.variable_list ++ ['$' :: v]) := by
  simp only [processLine] at h
  repeat' split at h
  all_goals
    first
    | exact Option.noConfusion h
    | (injection h with h; subst h; exact Or.inl ⟨rfl, rfl⟩)
    | (injection h with h; subst h; exact Or.inr (Or.inl ⟨_, ⟨_, rfl⟩, rfl, rfl⟩))
    | (injection h with h; subst h; exact Or.inr (Or.inr (Or.inl ⟨_, ⟨_, rfl⟩, rfl, rfl⟩)))
    | (injection h with h; subst h;
       exact Or.inr (Or.inr (Or.inr ⟨_, _, rfl, by assumption, rfl, rfl⟩)))

theorem customCount_append (v : Str) (ws : List EngineRec) (w : EngineRec) :
    customCount v (ws ++ [w]) =
      customCount v ws + (if w.message = customVarMsg v then 1 else 0) := by
  simp [customCount, List.countP_append, List.countP_cons, beq_iff_eq]

theorem customCount_pos (v : Str) (ws : List EngineRec) :
    0 < customCount v ws ↔ ∃ w ∈ ws, w.message = customVarMsg v := by
  simp [customCount, List.countP_pos_iff, beq_iff_eq]

theorem processLine_warnInv (env : ParseEnv) (single : Bool) (error line : Str)
    (st : ParseState) (r : ParseState ⊕ ParseState)
    (h : processLine env single error line st = some r) (hInv : warnInv st) :
    warnInv (Sum.elim id id r) := by
  rcases processLine_shape env single error line st r h with
    ⟨hw, hv⟩ | ⟨w, ⟨ds, hmsg⟩, hw, hv⟩ | ⟨w, ⟨f, hmsg⟩, hw, hv⟩ |
    ⟨w, v, hmsg, hnot, hw, hv⟩
  · constructor
    · intro u hu; rw [hv]; exact hInv.1 u (hw ▸ hu)
    · intro u; rw [hw]; exact hInv.2 u
  · constructor
    · intro u hu
      rw [hv]
      rcases hu with ⟨w', hw'mem, hw'msg⟩
      rw [hw] at hw'mem
      rcases List.mem_append.mp hw'mem with hL | hR
      · exact hInv.1 u ⟨w', hL, hw'msg⟩
      · rw [List.mem_singleton] at hR
        subst hR
        rw [hmsg] at hw'msg
        exact absurd hw'msg (datasetMsg_ne_customVarMsg ds u)
    · intro u
      rw [hw, customCount_append]
      rw [if_neg (by rw [hmsg]; exact datasetMsg_ne_customVarMsg ds u)]
      simpa using hInv.2 u
  · constructor
    · intro u hu
      rw [hv]
      rcases hu with ⟨w', hw'mem, hw'msg⟩
      rw [hw] at hw'mem
      rcases List.mem_append.mp hw'mem with hL | hR
      · exact hInv.1 u ⟨w', hL, hw'msg⟩
      · rw [List.mem_singleton] at hR
        subst hR
        rw [hmsg] at hw'msg
        exact absurd hw'msg (extFileMsg_ne_customVarMsg f u)
    · intro u
      rw [hw, customCount_append]
      rw [if_neg (by rw [hmsg]; exact extFileMsg_ne_customVarMsg f u)]
      simpa using hInv.2 u
  · constructor
    · intro u hu
      rw [hv]
      rcases hu with ⟨w', hw'mem, hw'msg⟩
      rw [hw] at hw'mem
      rcases List.mem_append.mp hw'mem with hL | hR
      · exact List.mem_append_left _ (hInv.1 u ⟨w', hL, hw'msg⟩)
      · rw [List.mem_singleton] at hR
        subst hR
        rw [hmsg] at hw'msg
        have : v = u := customVarMsg_inj hw'msg
        subst this
        exact List.mem_append_right _ (List.mem_singleton.mpr rfl)
    · intro u
      rw [hw, customCount_append]
      by_cases hvu : v = u
      · subst hvu
        have hzero : customCount v st.warnings = 0 := by
          by_contra hne
          have hpos : 0 < customCount v st.warnings := Nat.pos_of_ne_zero hne
          exact hnot (hInv.1 v ((customCount_pos v st.warnings).mp hpos))
        rw [hzero, hmsg, if_pos rfl]
      · rw [if_neg (by rw [hmsg]; exact fun hc => hvu (customVarMsg_inj hc))]
        simpa using hInv.2 u

theorem parseLoop_warnInv (env : ParseEnv) (single : Bool) (error : Str) :
    ∀ (lines : List Str) (st st' : ParseState), warnInv st →
      parseLoop env single error lines st = some st' → warnInv st' := by
  intro lines
  induction lines with
  | nil =>
    intro st st' hI h
    simp only [parseLoop] at h
    injection h with h
    exact h ▸ hI
  | cons l rest ih =>
    intro st st' hI h
    simp only [parseLoop] at h
    cases hp : processLine env single error l st with
    | none => rw [hp] at h; exact Option.noConfusion h
    | some r =>
      rw [hp] at h
      cases r with
      | inr stD =>
        injection h with h
        subst h
        simpa using processLine_warnInv env single error l st _ hp hI
      | inl st1 =>
        exact ih st1 st' (by simpa using processLine_warnInv env single error l st _ hp hI) h

theorem processLine_39_suppressed (env : ParseEnv) (single : Bool)
    (error line : Str) (st : ParseState) (r : EngineRec)
    (hpj : env.parseJson line = some r) (herr : r.error_code = 39)
    (hvar : ∃ v ∈ st.variable_list, hasSubstr r.message v) :
    ∃ st', processLine env single error line st = some (Sum.inl st') ∧
      st'.errors = st.errors := by
  have hany : st.variable_list.any (fun v => hasSubstr r.message v) = true :=
    List.any_eq_true.mpr hvar
  by_cases hsingle : single = true
  · exact ⟨st, by simp [processLine, hpj, herr, hsingle], rfl⟩
  · by_cases hign : st.ignore_next = true
    · by_cases hds : hasSubstr r.message "failed to set up dataset".data = true
      · exact ⟨st, by simp [processLine, hpj, herr, hsingle, hign, hds], rfl⟩
      · refine ⟨{ st with ignore_next := false }, ?_, rfl⟩
        simp [processLine, hpj, herr, hsingle, hign, hds]
    · exact ⟨st, by simp [processLine, hpj, herr, hsingle, hign, hany], rfl⟩

theorem processLine_ne_inr (env : ParseEnv) (single : Bool) (error line : Str)
    (st : ParseState) (s0 : EngineRec) (hpj : env.parseJson line = some s0) :
    ∀ st', processLine env single error line st ≠ some (Sum.inr st') := by
  intro st' h
  simp only [processLine, hpj] at h
  repeat' split at h
  all_goals
    first
    | exact Option.noConfusion h
    | (injection h with h; exact Sum.noConfusion h)

theorem parseLoop_append (env : ParseEnv) (single : Bool) (error : Str)
    (pre rest : List Str) (st : ParseState)
    (hp : ∀ l ∈ pre, (env.parseJson l).isSome) :
    parseLoop env single error (pre ++ rest) st =
      (parseLoop env single error pre st).bind (parseLoop env single error rest) := by
  induction pre generalizing st with
  | nil => simp [parseLoop]
  | cons l pre ih =>
    obtain ⟨s0, hs0⟩ := Option.isSome_iff_exists.mp (hp l (List.mem_cons_self l pre))
    have hp' : ∀ l' ∈ pre, (env.parseJson l').isSome :=
      fun l' hl' => hp l' (List.mem_cons_of_mem l hl')
    simp only [List.cons_append, parseLoop]
    cases hpl : processLine env single error l st with
    | none => simp
    | some r =>
      cases r with
      | inr stD => exact absurd hpl (processLine_ne_inr env single error l st s0 hs0 stD)
      | inl st1 => exact ih st1 hp'

/-- Claim C9 counterexample: with a first line decoding to an engine
record with error code 1 and a second line that fails JSON decoding, the
result's errors list has two records, not exactly one raw record. -/
theorem C9_counterexample :
    c9Env.parseJson c9Line2 = none ∧ c9Line2 ∈ stringIOLines c9Error ∧
    (parse_suricata_error c9Env c9Error false).map (fun st => st.errors.length) = some 2 := by
  decide

/-- Claim C9 (amended): when a line fails to parse as JSON,
`parse_suricata_error` appends one raw record holding the entire original
input to the errors collected so far and returns immediately; the
remainder of the line list is never examined (the result is the same for
every continuation `rest'`). -/
theorem C9_raw_error (env : ParseEnv) (single : Bool) (error : Str)
    (pre : List Str) (bad : Str) (rest : List Str) (stPre : ParseState)
    (hsplit : stringIOLines error = pre ++ bad :: rest)
    (hpre : ∀ l ∈ pre, (env.parseJson l).isSome)
    (hbad : env.parseJson bad = none)
    (hrun : parseLoop env single error pre initParseState = some stPre) :
    parse_suricata_error env error single =
      some { stPre with errors := stPre.errors ++ [rawEntry error] }
    ∧ ∀ rest', parseLoop env single error (bad :: rest') stPre =
        some { stPre with errors := stPre.errors ++ [rawEntry error] } := by
  have hstep : ∀ rest', parseLoop env single error (bad :: rest') stPre =
      some { stPre with errors := stPre.errors ++ [rawEntry error] } := by
    intro rest'
    simp [parseLoop, processLine, hbad, rawEntry]
  refine ⟨?_, hstep⟩
  unfold parse_suricata_error
  rw [hsplit, parseLoop_append env single error pre (bad :: rest) initParseState hpre, hrun]
  exact hstep rest

/-- Witness for the amended claim C9 on a concrete two-line input. -/
theorem C9_witness :
    parse_suricata_error c9Env c9Error false =
      some { c9StPre with errors := c9StPre.errors ++ [rawEntry c9Error] } :=
  (C9_raw_error c9Env false c9Error [c9Line1] c9Line2 [] c9StPre (by decide)
    (by decide) (by decide) (by decide)).1

/-- Claim C10: every distinct undefined-variable name (engine error 101)
yields at most one warning over a whole run, however many records mention
it, and a code-39 record whose message contains an already-collected
variable name is suppressed: its loop iteration leaves the errors list
unchanged. -/
theorem C10_variable_warning_dedup :
    (∀ (env : ParseEnv) (single : Bool) (error : Str) (st : ParseState),
        parse_suricata_error env error single = some st →
        ∀ v : Str, customCount v st.warnings ≤ 1)
  ∧ (∀ (env : ParseEnv) (single : Bool) (error line : Str) (st : ParseState)
        (r : EngineRec), env.parseJson line = some r → r.error_code = 39 →
        (∃ v ∈ st.variable_list, hasSubstr r.message v) →
        ∃ st', processLine env single error line st = some (Sum.inl st') ∧
          st'.errors = st.errors) := by
  constructor
  · intro env single error st h v
    have hInit : warnInv initParseState := by
      constructor
      · intro u hu
        rcases hu with ⟨w, hw, _⟩
        exact absurd hw (List.not_mem_nil w)
      · intro u
        simp [customCount, initParseState]
    exact (parseLoop_warnInv env single error _ _ _ hInit h).2 v
  · intro env single error line st r hpj herr hvar
    exact processLine_39_suppressed env single error line st r hpj herr hvar

set_option maxRecDepth 40000 in
/-- Witness for claim C10 on concrete 101/39 records. -/
theorem C10_witness :
    customCount "MYVAR".data c10State.warnings ≤ 1 ∧
    (∃ st', processLine c10Env false c10Error c10LineB c10StB = some (Sum.inl st') ∧
      st'.errors = c10StB.errors) :=
  ⟨C10_variable_warning_dedup.1 c10Env false c10Error c10State (by decide) "MYVAR".data,
   C10_variable_warning_dedup.2 c10Env false c10Error c10LineB c10StB c10RecB
     (by decide) (by decide) (by decide)⟩

theorem alookup_ainsert_self {κ α : Type} [DecidableEq κ]
    (m : List (κ × α)) (k : κ) (v : α) : alookup (ainsert m k v) k = some v := by
  induction m with
  | nil => simp [ainsert, alookup]
  | cons kv rest ih =>
    by_cases h : kv.1 = k
    · simp [ainsert, alookup, h]
    · simpa [ainsert, alookup, h] using ih

theorem alookup_ainsert_ne {κ α : Type} [DecidableEq κ]
    (m : List (κ × α)) (k k' : κ) (v : α) (h : k ≠ k') :
    alookup (ainsert m k v) k' = alookup m k' := by
  induction m with
  | nil => simp [ainsert, alookup, h]
  | cons kv rest ih =>
    by_cases hk : kv.1 = k
    · simp [ainsert, alookup, hk, h]
    · by_cases hk' : kv.1 = k'
      · simp [ainsert, alookup, hk, hk', Ne.symm h]
      · simpa [ainsert, alookup, hk, hk'] using ih

theorem alookup_filter_not {α : Type} (m : List (Str × α)) (p : Str × α → Bool)
    (k : Str) (hp : ∀ v, p (k, v) = false) : alookup (m.filter p) k = none := by
  induction m with
  | nil => simp [alookup]
  | cons kv rest ih =>
    by_cases hk : kv.1 = k
    · have : p kv = false := by
        obtain ⟨k1, v1⟩ := kv
        simp only at hk
        subst hk
        exact hp v1
      simp [List.filter, this, ih]
    · cases hpv : p kv
      · simp [List.filter, hpv, ih]
      · simp [List.filter, hpv, alookup, hk, ih]

/-- Claim C2 counterexample: closing a deleted file empties the Global
Symbol Table entries keyed by the file's global names, yet the workspace
mapping still contains the file's path — the claim's eviction of the
FileIndex does not happen. -/
theorem C2_counterexample :
    c2Env.isfile "f.rules" = false ∧
    alookup c2State.workspace "f.rules" = some c2File ∧
    serve_onSave c2Env c2State "f.rules" false true =
      ({ c2State with obj_tree := [] }, []) ∧
    alookup (serve_onSave c2Env c2State "f.rules" false true).1.workspace "f.rules" =
      some c2File := by
  decide

/-- Claim C2 (amended): when a closed file no longer exists on disk,
`serve_onSave` removes every Global Symbol Table entry keyed by one of the
file's global names and posts no message, but leaves the workspace mapping
unchanged — the FileIndex is not evicted. -/
theorem C2_close_missing_file (env : FsEnv) (st : ServerState) (filepath : String)
    (did_open : Bool) (fo : SuricataFile) (ast : AST)
    (hfs : env.isfile filepath = false)
    (hws : alookup st.workspace filepath = some fo)
    (hast : fo.ast = some ast) :
    (serve_onSave env st filepath did_open true).1.workspace = st.workspace ∧
    (serve_onSave env st filepath did_open true).1.obj_tree =
      st.obj_tree.filter (fun kv => !ast.global_dict.contains kv.1) ∧
    (∀ k ∈ ast.global_dict,
      alookup (serve_onSave env st filepath did_open true).1.obj_tree k = none) ∧
    (serve_onSave env st filepath did_open true).2 = [] := by
  have hrun : serve_onSave env st filepath did_open true =
      ({ st with obj_tree :=
          st.obj_tree.filter (fun kv => !ast.global_dict.contains kv.1) }, []) := by
    simp [serve_onSave, hfs, hws, hast]
  refine ⟨by rw [hrun], by rw [hrun], ?_, by rw [hrun]⟩
  intro k hk
  rw [hrun]
  exact alookup_filter_not st.obj_tree _ k
    (fun v => by simp only [Bool.not_eq_false']; exact List.elem_eq_true_of_mem hk)

/-- Witness for the amended claim C2 at a concrete one-file state. -/
theorem C2_witness :
    (serve_onSave c2Env c2State "f.rules" false true).1.workspace = c2State.workspace ∧
    (serve_onSave c2Env c2State "f.rules" false true).1.obj_tree =
      c2State.obj_tree.filter (fun kv => !c2Ast.global_dict.contains kv.1) ∧
    (∀ k ∈ c2Ast.global_dict,
      alookup (serve_onSave c2Env c2State "f.rules" false true).1.obj_tree k = none) ∧
    (serve_onSave c2Env c2State "f.rules" false true).2 = [] :=
  C2_close_missing_file c2Env c2State "f.rules" false c2File c2Ast
    (by decide) (by decide) (by decide)

theorem initFold_obj_tree (env : FsEnv) :
    ∀ (fl : List String) (acc : ServerState × List (Int × String)),
      (fl.foldl (initStep env) acc).1.obj_tree = acc.1.obj_tree := by
  intro fl
  induction fl with
  | nil => intro acc; rfl
  | cons p fl ih =>
    intro acc
    rw [List.foldl_cons, ih]
    unfold initStep
    cases init_file env p <;> rfl

theorem initFold_msgs_mono (env : FsEnv) :
    ∀ (fl : List String) (acc : ServerState × List (Int × String)) (m : Int × String),
      m ∈ acc.2 → m ∈ (fl.foldl (initStep env) acc).2 := by
  intro fl
  induction fl with
  | nil => intro acc m hm; exact hm
  | cons p fl ih =>
    intro acc m hm
    rw [List.foldl_cons]
    refine ih _ m ?_
    unfold initStep
    cases init_file env p with
    | error e => exact List.mem_append_left _ hm
    | ok fo => exact hm

theorem initFold_not_mem (env : FsEnv) :
    ∀ (fl : List String) (acc : ServerState × List (Int × String)) (p : String),
      p ∉ fl →
      alookup (fl.foldl (initStep env) acc).1.workspace p = alookup acc.1.workspace p := by
  intro fl
  induction fl with
  | nil => intro acc p _; rfl
  | cons q fl ih =>
    intro acc p hp
    rw [List.foldl_cons, ih _ p (fun h => hp (List.mem_cons_of_mem q h))]
    unfold initStep
    cases init_file env q with
    | error e => rfl
    | ok fo =>
      exact alookup_ainsert_ne _ q p fo (fun h => hp (h ▸ List.mem_cons_self q fl))

/-- Claim C3 counterexample: a successful initialization stores the
FileIndex but contributes nothing to the Global Symbol Table, which stays
empty although the parsed file has a top-level global name. -/
theorem C3_counterexample :
    workspace_init c3Env {} ["g.rules"] =
      ({ workspace := [("g.rules", c3File)], obj_tree := [] }, []) ∧
    (workspace_init c3Env {} ["g.rules"]).1.obj_tree = [] ∧
    c3Ast.global_dict = ["gname".data] := by
  decide

/-- Claim C3 (amended): after the `workspace_init` merge over a
duplicate-free file list, a failed worker records its per-file warning and
leaves the file's workspace entry unchanged, a successful worker stores the
parsed FileIndex, and the Global Symbol Table is not modified. -/
theorem C3_workspace_init (env : FsEnv) (st : ServerState) (file_list : List String)
    (hnd : file_list.Nodup) :
    (workspace_init env st file_list).1.obj_tree = st.obj_tree ∧
    ∀ p ∈ file_list,
      (∀ e, init_file env p = Except.error e →
        (1, initFailMsg p e) ∈ (workspace_init env st file_list).2 ∧
        alookup (workspace_init env st file_list).1.workspace p =
          alookup st.workspace p) ∧
      (∀ fo, init_file env p = Except.ok fo →
        alookup (workspace_init env st file_list).1.workspace p = some fo) := by
  constructor
  · exact initFold_obj_tree env file_list (st, [])
  · unfold workspace_init
    -- generalize over the accumulator
    suffices hgen : ∀ (fl : List String) (acc : ServerState × List (Int × String)),
        fl.Nodup → ∀ p ∈ fl,
        (∀ e, init_file env p = Except.error e →
          (1, initFailMsg p e) ∈ (fl.foldl (initStep env) acc).2 ∧
          alookup (fl.foldl (initStep env) acc).1.workspace p =
            alookup acc.1.workspace p) ∧
        (∀ fo, init_file env p = Except.ok fo →
          alookup (fl.foldl (initStep env) acc).1.workspace p = some fo) by
      exact hgen file_list (st, []) hnd
    intro fl
    induction fl with
    | nil => intro acc _ p hp; exact absurd hp (List.not_mem_nil p)
    | cons q fl ih =>
      intro acc hnd p hp
      have hndtail := (List.nodup_cons.mp hnd).2
      have hqnot := (List.nodup_cons.mp hnd).1
      rcases List.mem_cons.mp hp with hpq | hptail
      · subst hpq
        constructor
        · intro e he
          rw [List.foldl_cons]
          constructor
          · refine initFold_msgs_mono env fl _ _ ?_
            unfold initStep
            rw [he]
            exact List.mem_append_right _ (List.mem_singleton.mpr rfl)
          · rw [initFold_not_mem env fl _ p hqnot]
            unfold initStep
            rw [he]
        · intro fo hfo
          rw [List.foldl_cons, initFold_not_mem env fl _ p hqnot]
          unfold initStep
          rw [hfo]
          exact alookup_ainsert_self _ p fo
      · have := ih acc hndtail p hptail
        constructor
        · intro e he
          rw [List.foldl_cons]
          have h2 := (ih (initStep env acc q) hndtail p hptail).1 e he
          refine ⟨h2.1, ?_⟩
          rw [h2.2]
          unfold initStep
          cases hq : init_file env q with
          | error e' => rfl
          | ok fo' =>
            exact alookup_ainsert_ne _ q p fo'
              (fun h => hqnot (h ▸ hptail))
        · intro fo hfo
          rw [List.foldl_cons]
          exact (ih (initStep env acc q) hndtail p hptail).2 fo hfo

/-- Witness for the amended claim C3 at a concrete one-file list. -/
theorem C3_witness :
    (workspace_init c3Env {} ["g.rules"]).1.obj_tree = ({} : ServerState).obj_tree ∧
    (∀ fo, init_file c3Env "g.rules" = Except.ok fo →
      alookup (workspace_init c3Env {} ["g.rules"]).1.workspace "g.rules" = some fo) :=
  ⟨(C3_workspace_init c3Env {} ["g.rules"] (by decide)).1,
   ((C3_workspace_init c3Env {} ["g.rules"] (by decide)).2 "g.rules"
     (List.mem_singleton.mpr rfl)).2⟩

/-- Claim C4: for a file already in the workspace, `update_workspace_file`
with `read_file` set returns `(False, None)` when the reloaded fingerprint
equals the stored one: the stored FileIndex keeps its AST and hash (only
its buffer is refreshed in place), the Global Symbol Table is untouched,
and the outcome does not depend on the parser at all. -/
theorem C4_idempotent_save (env : FsEnv) (st : ServerState) (filepath : String)
    (allow_empty update_links : Bool) (fo : SuricataFile) (c : List Str) (h : Nat)
    (hws : alookup st.workspace filepath = some fo)
    (hload : env.loadFromDisk filepath = Except.ok (c, h))
    (hhash : fo.hash = some h) :
    update_workspace_file env st filepath true allow_empty update_links =
      ({ st with
          workspace := ainsert st.workspace filepath ({ fo with contents_split := c, hash := some h }) },
       false, none) ∧
    (update_workspace_file env st filepath true allow_empty update_links).1.obj_tree =
      st.obj_tree ∧
    alookup (update_workspace_file env st filepath true allow_empty
        update_links).1.workspace filepath =
      some { fo with contents_split := c, hash := some h } ∧
    ({ fo with contents_split := c, hash := some h } : SuricataFile).ast = fo.ast ∧
    ({ fo with contents_split := c, hash := some h } : SuricataFile).hash = fo.hash ∧
    (∀ pf, update_workspace_file { env with parseFile := pf } st filepath true
        allow_empty update_links =
      update_workspace_file env st filepath true allow_empty update_links) := by
  have hrun : ∀ env' : FsEnv, env'.loadFromDisk filepath = Except.ok (c, h) →
      update_workspace_file env' st filepath true allow_empty update_links =
        ({ st with
            workspace := ainsert st.workspace filepath ({ fo with contents_split := c, hash := some h }) },
         false, none) := by
    intro env' hload'
    simp [update_workspace_file, hws, hload', hhash]
  refine ⟨hrun env hload, ?_, ?_, rfl, hhash.symm, ?_⟩
  · rw [hrun env hload]
  · rw [hrun env hload]
    exact alookup_ainsert_self _ filepath _
  · intro pf
    rw [hrun env hload, hrun { env with parseFile := pf } hload]

/-- Witness for claim C4 at a concrete one-file state. -/
theorem C4_witness :
    update_workspace_file c4Env c4State "h.rules" true false false =
      ({ c4State with
          workspace := ainsert c4State.workspace "h.rules" ({ c4File with contents_split := ["x".data], hash := some 5 }) },
       false, none) ∧
    (update_workspace_file c4Env c4State "h.rules" true false false).1.obj_tree =
      c4State.obj_tree :=
  ⟨(C4_idempotent_save c4Env c4State "h.rules" false false c4File ["x".data] 5
      (by decide) rfl (by decide)).1,
   (C4_idempotent_save c4Env c4State "h.rules" false false c4File ["x".data] 5
      (by decide) rfl (by decide)).2.1⟩

/-- Claim C5: for a member access (an access chain with more than one
segment) `get_definition` returns nothing when the type-tree climb fails,
otherwise exactly the scope lookup's result — never consulting the
intrinsic table — and the Global-Symbol-Table-then-intrinsics fallback is
taken exactly when the access is not a member access and the scope-chain
lookup found nothing. -/
theorem C5_member_access_resolution {σ : Type} (env : DefEnv σ) (obj_tree : ObjTree)
    (def_line def_char : Nat) (lp : Str) (var_stack : List Str) (def_name : Str)
    (hlp : env.getLinePfx (env.getCodeLine def_line).1 (env.getCodeLine def_line).2
      def_char = some lp)
    (hvs : env.getVarStack lp = some var_stack)
    (hdn : env.expandName (env.getCodeLine def_line).2 def_char = some def_name)
    (hne : def_name ≠ []) :
    (1 < var_stack.length →
      (env.climbTypeTree var_stack (env.getInnerScope (def_line + 1)) obj_tree = none →
        get_definition env obj_tree def_line def_char = none) ∧
      (∀ ts, env.climbTypeTree var_stack (env.getInnerScope (def_line + 1)) obj_tree =
          some ts →
        get_definition env obj_tree def_line def_char =
          env.findInScope (some ts) def_name obj_tree) ∧
      (∀ intr, get_definition { env with intrinsicFuns := intr } obj_tree def_line def_char =
        get_definition env obj_tree def_line def_char))
  ∧ (¬ 1 < var_stack.length →
      (∀ v, scopeLookup env obj_tree (env.getInnerScope (def_line + 1)) false lp def_name =
          some v →
        get_definition env obj_tree def_line def_char = some v) ∧
      (scopeLookup env obj_tree (env.getInnerScope (def_line + 1)) false lp def_name =
          none →
        get_definition env obj_tree def_line def_char =
          globalFallback obj_tree env.intrinsicFuns def_name)) := by
  constructor
  · intro hmem
    have hd : decide (1 < var_stack.length) = true := decide_eq_true hmem
    refine ⟨?_, ?_, ?_⟩
    · intro hclimb
      simp [get_definition, hlp, hvs, hdn, hne, hd, hclimb]
    · intro ts hclimb
      simp [get_definition, hlp, hvs, hdn, hne, hd, hclimb, scopeLookup, hmem]
      cases env.findInScope (some ts) def_name obj_tree <;> simp
    · intro intr
      simp [get_definition, hlp, hvs, hdn, hne, hd]
      cases hclimb : env.climbTypeTree var_stack (env.getInnerScope (def_line + 1))
          obj_tree with
      | none => simp
      | some ts => simp [scopeLookup]
  · intro hmem
    have hd : decide (1 < var_stack.length) = false := decide_eq_false hmem
    constructor
    · intro v hv
      simp [get_definition, hlp, hvs, hdn, hne, hd, hv]
    · intro hnone
      simp [get_definition, hlp, hvs, hdn, hne, hd, hnone]

/-- Witness for claim C5 at a concrete environment. -/
theorem C5_witness :
    get_definition c5Env [] 0 0 = none ∧
    get_definition ({ c5Env with intrinsicFuns := [] }) [] 0 0 =
      get_definition c5Env [] 0 0 :=
  ⟨((C5_member_access_resolution c5Env [] 0 0 "a.b".data ["a".data, "b".data]
      "b".data rfl rfl rfl (by decide)).1 (by decide)).1 rfl,
   ((C5_member_access_resolution c5Env [] 0 0 "a.b".data ["a".data, "b".data]
      "b".data rfl rfl rfl (by decide)).1 (by decide)).2.2 []⟩

/-- Claim C8: `serve_definition` is a pure read — the server state comes
back unchanged — a query that resolves to no symbol answers an absent
result rather than raising, and a cursor over whitespace (an empty
identifier from `expand_name`) resolves to nothing. -/
theorem C8_definition_pure_read {σ : Type} (envOf : String → DefEnv σ)
    (findWord : String → Int → Str → Int × Int × Int) (pathToUri : String → String)
    (st : ServerState) (path : String) (def_line def_char : Nat) :
    (serve_definition envOf findWord pathToUri st path def_line def_char).1 = st ∧
    (get_definition (envOf path) st.obj_tree def_line def_char = none →
      (serve_definition envOf findWord pathToUri st path def_line def_char).2 = none) ∧
    (∀ (env : DefEnv σ) (obj_tree : ObjTree),
      env.expandName (env.getCodeLine def_line).2 def_char = some [] →
      get_definition env obj_tree def_line def_char = none) := by
  refine ⟨?_, ?_, ?_⟩
  · unfold serve_definition
    repeat' split
    all_goals rfl
  · intro hnone
    unfold serve_definition
    cases alookup st.workspace path with
    | none => rfl
    | some fo => simp [hnone]
  · intro env obj_tree hexp
    simp only [get_definition]
    split
    · rfl
    · split
      · rfl
      · simp [hexp]

/-- Witness for claim C8 at a concrete environment. -/
theorem C8_witness :
    (serve_definition (fun _ => c8Env) (fun _ _ _ => (0, 0, 0)) id c8State "p" 0 0).1 =
      c8State ∧
    get_definition c8Env [] 0 0 = none :=
  ⟨(C8_definition_pure_read (fun _ => c8Env) (fun _ _ _ => (0, 0, 0)) id c8State
      "p" 0 0).1,
   (C8_definition_pure_read (fun _ => c8Env) (fun _ _ _ => (0, 0, 0)) id c8State
      "p" 0 0).2.2 c8Env [] rfl⟩

theorem findIdxL_eq_some_iff {α : Type} (p : α → Bool) (l : List α) (i : Nat) :
    findIdxL p l = some i ↔
      (∃ x, l.get? i = some x ∧ p x = true) ∧
      (∀ j, j < i → ∀ y, l.get? j = some y → p y = false) := by
  induction l generalizing i with
  | nil => simp [findIdxL]
  | cons a as ih =>
    cases hp : p a with
    | true =>
      cases i with
      | zero => simp [findIdxL, hp]
      | succ i =>
        simp only [findIdxL, hp, if_pos]
        constructor
        · intro h; exact absurd h (by simp)
        · rintro ⟨_, hall⟩
          have := hall 0 (Nat.succ_pos i) a rfl
          rw [hp] at this
          exact absurd this (by simp)
    | false =>
      cases i with
      | zero =>
        simp only [findIdxL, hp, if_neg Bool.false_ne_true]
        constructor
        · intro h
          rcases Option.map_eq_some'.mp h with ⟨k, _, hk⟩
          exact absurd hk (by omega)
        · rintro ⟨⟨x, hx, hpx⟩, _⟩
          simp only [List.get?_cons_zero] at hx
          have hax : a = x := Option.some.inj hx
          rw [← hax, hp] at hpx
          exact Bool.noConfusion hpx
      | succ i =>
        simp only [findIdxL, hp, if_neg Bool.false_ne_true]
        constructor
        · intro h
          rcases Option.map_eq_some'.mp h with ⟨k, hk, hki⟩
          obtain rfl : i = k := by omega
          rcases (ih i).mp hk with ⟨hex, hall⟩
          refine ⟨hex, ?_⟩
          intro j hj y hy
          cases j with
          | zero =>
            simp only [List.get?_cons_zero] at hy
            rw [← Option.some.inj hy]
            exact hp
          | succ j =>
            exact hall j (Nat.lt_of_succ_lt_succ hj) y hy
        · rintro ⟨hex, hall⟩
          have hk : findIdxL p as = some i := by
            refine (ih i).mpr ⟨hex, ?_⟩
            intro j hj y hy
            exact hall (j + 1) (Nat.succ_lt_succ hj) y hy
          rw [hk]
          rfl

/-- Claim C6: for every signature-help result over raw arguments `A` and
parameter labels `P`, the active parameter index defaults to `len(A)-1`,
equals `i` when the last argument has the form `name=...` and `name`
case-insensitively equals the leading label token of the `i`-th parameter
(the first such), and equals `i+1` when only the second-to-last argument
matches that way; `check_optional` is characterized as the least matching
index. -/
theorem C6_active_parameter {σ : Type} (env : SigEnv σ) (obj_tree : ObjTree)
    (sig_line sig_char : Nat) (lp sub0 : Str) (A : List Str) (sub_end : Nat)
    (res : SigResult)
    (hlp : env.getLinePfx (env.getCodeLine sig_line).1 (env.getCodeLine sig_line).2
      sig_char = some lp)
    (hsub : env.getSubName lp = some (sub0, A, sub_end))
    (_hA : A ≠ [])
    (hres : serve_signature env obj_tree sig_line sig_char = some res) :
    res.activeParameter = activeParamNum A res.params ∧
    (check_optional (A.getLastD []) res.params = none →
      (A.length ≤ 1 ∨ check_optional (A.getD (A.length - 2) []) res.params = none) →
      res.activeParameter = (A.length : Int) - 1) ∧
    (∀ i, check_optional (A.getLastD []) res.params = some i →
      res.activeParameter = (i : Int)) ∧
    (∀ i, check_optional (A.getLastD []) res.params = none → 1 < A.length →
      check_optional (A.getD (A.length - 2) []) res.params = some i →
      res.activeParameter = (i : Int) + 1) ∧
    (∀ (arg : Str) (P : List Str) (i : Nat),
      check_optional arg P = some i ↔
        1 < (splitOnL ['='] arg).length ∧
        (∃ p, P.get? i = some p ∧
          lowerL ((splitOnL ['='] p).headD []) =
            lowerL (trimL ((splitOnL ['='] arg).headD []))) ∧
        ∀ j, j < i → ∀ p, P.get? j = some p →
          lowerL ((splitOnL ['='] p).headD []) ≠
            lowerL (trimL ((splitOnL ['='] arg).headD []))) := by
  have hmain : res.activeParameter = activeParamNum A res.params := by
    simp only [serve_signature, hlp, hsub] at hres
    split at hres
    · exact Option.noConfusion hres
    · repeat' split at hres
      all_goals first
        | exact Option.noConfusion hres
        | (injection hres with hres; subst hres; rfl)
  refine ⟨hmain, ?_, ?_, ?_, ?_⟩
  · intro hnone hsecond
    rw [hmain]
    unfold activeParamNum
    simp only [List.getLastD_eq_getLast?, List.getD_eq_getElem?_getD] at hnone ⊢
    rcases hsecond with hle | hsnone
    · have hlt : ¬ 1 < A.length := by omega
      simp [hnone, hlt]
    · simp only [List.getD_eq_getElem?_getD] at hsnone
      simp [hnone, hsnone]
  · intro i hsome
    rw [hmain]
    unfold activeParamNum
    simp only [List.getLastD_eq_getLast?, List.getD_eq_getElem?_getD] at hsome ⊢
    simp [hsome]
  · intro i hnone hlen hsome
    rw [hmain]
    unfold activeParamNum
    simp only [List.getLastD_eq_getLast?, List.getD_eq_getElem?_getD] at hnone hsome ⊢
    simp [hnone, hsome, hlen]
  · intro arg P i
    unfold check_optional
    by_cases hsplit : 1 < (splitOnL ['='] arg).length
    · rw [if_pos hsplit]
      rw [findIdxL_eq_some_iff]
      constructor
      · rintro ⟨⟨x, hx, hpx⟩, hall⟩
        refine ⟨hsplit, ⟨x, hx, by simpa using hpx⟩, ?_⟩
        intro j hj p hp
        have := hall j hj p hp
        simpa using this
      · rintro ⟨_, ⟨x, hx, hpx⟩, hall⟩
        refine ⟨⟨x, hx, by simpa using hpx⟩, ?_⟩
        intro j hj y hy
        have := hall j hj y hy
        simpa using this
    · rw [if_neg hsplit]
      simp [hsplit]

/-- Witness for claim C6 at a concrete environment. -/
theorem C6_witness : c6Res.activeParameter = (1 : Int) :=
  (C6_active_parameter c6Env [] 0 0 "f(a, b=1".data "f".data
      ["a".data, " b=1".data] 0 c6Res rfl rfl (by decide) (by decide)).2.2.1 1
    (by decide)

theorem nameMatchAt_true {l name : Str} {p : Nat} (h : nameMatchAt l name p = true) :
    p + name.length ≤ l.length ∧ lowerL ((l.drop p).take name.length) = name := by
  unfold nameMatchAt at h
  rw [Bool.and_eq_true] at h
  exact ⟨by simpa using h.1, by simpa using h.2⟩

theorem suffixCheck_spec {l name : Str} {gs0 gs ge me : Nat}
    (h : suffixCheck l name gs0 = some (gs, ge, me)) :
    gs = gs0 ∧ ge = gs0 + name.length ∧
    (l.length ≤ ge ∨ ∃ c, l.get? ge = some c ∧ isWordChar c = false) := by
  simp only [suffixCheck] at h
  cases hg : l.get? (gs0 + name.length) with
  | some c2 =>
    rw [hg] at h
    by_cases hw : isWordChar c2
    · simp [hw] at h
    · simp only [hw, if_neg, Bool.false_eq_true, not_false_eq_true, if_false] at h
      simp only [Option.some.injEq, Prod.mk.injEq] at h
      obtain ⟨rfl, rfl, rfl⟩ := h
      exact ⟨rfl, rfl, Or.inr ⟨c2, hg, by simp [hw]⟩⟩
  | none =>
    rw [hg] at h
    simp only [Option.some.injEq, Prod.mk.injEq] at h
    obtain ⟨rfl, rfl, rfl⟩ := h
    exact ⟨rfl, rfl, Or.inl (List.get?_eq_none.mp hg)⟩

theorem tryMatchB_spec {l name : Str} {p gs ge me : Nat}
    (h : tryMatchB l name p = some (gs, ge, me)) :
    wholeWordAt l name gs ge := by
  unfold tryMatchB at h
  split at h
  · rename_i hcond
    obtain ⟨rfl, rfl, hright⟩ := suffixCheck_spec h
    obtain ⟨hlen, hslice⟩ := nameMatchAt_true hcond.2
    refine ⟨rfl, by simpa using hlen, by simpa using hslice, Or.inl rfl, ?_⟩
    rcases hright with hle | hex
    · exact Or.inl (Nat.le_antisymm (by simpa using hlen) hle)
    · exact Or.inr hex
  · exact Option.noConfusion h

theorem tryMatchAt_spec {l name : Str} {p gs ge me : Nat}
    (h : tryMatchAt l name p = some (gs, ge, me)) :
    wholeWordAt l name gs ge := by
  unfold tryMatchAt at h
  cases hgp : l.get? p with
  | some c =>
    rw [hgp] at h
    dsimp only at h
    by_cases hw : isWordChar c
    · rw [if_pos hw] at h
      exact tryMatchB_spec h
    · rw [if_neg (by simp [hw])] at h
      by_cases hnm : nameMatchAt l name (p + 1)
      · rw [if_pos hnm] at h
        cases hsc : suffixCheck l name (p + 1) with
        | none => rw [hsc] at h; exact tryMatchB_spec h
        | some r =>
          rw [hsc] at h
          have hr : r = (gs, ge, me) := by simpa using h
          rw [hr] at hsc
          obtain ⟨rfl, rfl, hright⟩ := suffixCheck_spec hsc
          obtain ⟨hlen, hslice⟩ := nameMatchAt_true hnm
          refine ⟨rfl, hlen, hslice, ?_, ?_⟩
          · exact Or.inr ⟨c, by simpa using hgp, by simp [hw]⟩
          · rcases hright with hle | hex
            · exact Or.inl (Nat.le_antisymm hlen hle)
            · exact Or.inr hex
      · rw [if_neg (by simp [hnm])] at h
        exact tryMatchB_spec h
  | none =>
    rw [hgp] at h
    dsimp only at h
    exact tryMatchB_spec h

theorem firstMatchAux_spec {l name : Str} :
    ∀ (fuel p : Nat) (r : Nat × Nat × Nat),
      firstMatchAux l name fuel p = some r →
      ∃ q, tryMatchAt l name q = some r := by
  intro fuel
  induction fuel with
  | zero => intro p r h; exact Option.noConfusion h
  | succ fuel ih =>
    intro p r h
    unfold firstMatchAux at h
    by_cases hp : p ≤ l.length
    · rw [if_pos hp] at h
      cases ht : tryMatchAt l name p with
      | some r' => rw [ht] at h; exact ⟨p, ht.trans (by simpa using h)⟩
      | none => rw [ht] at h; exact ih (p + 1) r h
    · rw [if_neg hp] at h; exact Option.noConfusion h

theorem firstMatchFrom_spec {l name : Str} {p : Nat} {r : Nat × Nat × Nat}
    (h : firstMatchFrom l name p = some r) :
    ∃ q, tryMatchAt l name q = some r :=
  firstMatchAux_spec _ _ r h

theorem findIterAux_spec {l name : Str} :
    ∀ (fuel q : Nat) (pr : Nat × Nat),
      pr ∈ findIterAux l name fuel q →
      ∃ p me, tryMatchAt l name p = some (pr.1, pr.2, me) := by
  intro fuel
  induction fuel with
  | zero => intro q pr h; exact absurd h (List.not_mem_nil pr)
  | succ fuel ih =>
    intro q pr h
    unfold findIterAux at h
    cases hf : firstMatchFrom l name q with
    | none => rw [hf] at h; exact absurd h (List.not_mem_nil pr)
    | some r =>
      rw [hf] at h
      obtain ⟨gs, ge, me⟩ := r
      rcases List.mem_cons.mp h with hhead | htail
      · subst hhead
        obtain ⟨p, hp⟩ := firstMatchFrom_spec hf
        exact ⟨p, me, hp⟩
      · exact ih _ pr htail

theorem findIter_wholeWord {l name : Str} {pr : Nat × Nat}
    (h : pr ∈ findIter l name) : wholeWordAt l name pr.1 pr.2 := by
  obtain ⟨p, me, hp⟩ := findIterAux_spec (l.length + 1) 0 pr h
  exact tryMatchAt_spec hp

theorem processMatches_spec (env : RefEnv) (q : Sym) (def_name : Str) (tm : Bool)
    (path : String) (i : Nat) (sl : Str) :
    ∀ (ms : List (Nat × Nat)) (cache : List Str) (os : List Occ) (rs : List Sym)
      (c' : List Str),
      processMatches env q def_name tm path i sl ms cache = some (os, rs, c') →
      ∀ o ∈ os, o.line = i ∧ (o.sCol, o.eCol) ∈ ms ∧
        (o.cls = RefClass.exact ↔
          (o.targetFqsn = q.fqsn ∨ o.targetFqsn ∈ o.cacheBefore)) := by
  intro ms
  induction ms with
  | nil =>
    intro cache os rs c' h o ho
    simp only [processMatches, Option.some.injEq, Prod.mk.injEq] at h
    obtain ⟨rfl, -, -⟩ := h
    exact absurd ho (List.not_mem_nil o)
  | cons m ms ih =>
    intro cache os rs c' h o ho
    obtain ⟨gs, ge⟩ := m
    simp only [processMatches] at h
    cases hgd : env.getDef path i (gs + 1) with
    | none =>
      rw [hgd] at h
      obtain ⟨h1, h2, h3⟩ := ih cache os rs c' h o ho
      exact ⟨h1, List.mem_cons_of_mem _ h2, h3⟩
    | some v =>
      rw [hgd] at h
      dsimp only at h
      by_cases hc1 : q.fqsn = v.fqsn ∨ v.fqsn ∈ cache
      · rw [if_pos hc1] at h
        cases hrec : processMatches env q def_name tm path i sl ms cache with
        | none => rw [hrec] at h; exact Option.noConfusion h
        | some t =>
          obtain ⟨os', rs', c''⟩ := t
          rw [hrec] at h
          simp only [Option.some.injEq, Prod.mk.injEq] at h
          obtain ⟨rfl, rfl, rfl⟩ := h
          rcases List.mem_cons.mp ho with rfl | htail
          · refine ⟨rfl, List.mem_cons_self _ _, ?_⟩
            refine iff_of_true rfl ?_
            rcases hc1 with he | hm
            · exact Or.inl he.symm
            · exact Or.inr hm
          · obtain ⟨h1, h2, h3⟩ := ih cache os' rs' c'' hrec o htail
            exact ⟨h1, List.mem_cons_of_mem _ h2, h3⟩
      · rw [if_neg hc1] at h
        cases hpt : v.parentType with
        | none => rw [hpt] at h; exact Option.noConfusion h
        | some pt =>
          rw [hpt] at h
          dsimp only at h
          by_cases hcls : pt = CLASS_TYPE_ID
          · rw [if_pos hcls] at h
            cases hrec : processMatches env q def_name tm path i sl ms
                (if (tm && decide (q.fqsn ∈ v.overriden)) = true
                 then cache ++ [v.fqsn] else cache) with
            | none => rw [hrec] at h; exact Option.noConfusion h
            | some t =>
              obtain ⟨os', rs', c''⟩ := t
              rw [hrec] at h
              dsimp only at h
              split at h
              · simp only [Option.some.injEq, Prod.mk.injEq] at h
                obtain ⟨rfl, rfl, rfl⟩ := h
                rcases List.mem_cons.mp ho with rfl | htail
                · refine ⟨rfl, List.mem_cons_self _ _, ?_⟩
                  refine iff_of_false (by simp) ?_
                  intro hcon
                  refine hc1 ?_
                  rcases hcon with he | hm
                  · exact Or.inl he.symm
                  · exact Or.inr hm
                · obtain ⟨h1, h2, h3⟩ := ih _ os' rs' c'' hrec o htail
                  exact ⟨h1, List.mem_cons_of_mem _ h2, h3⟩
              · simp only [Option.some.injEq, Prod.mk.injEq] at h
                obtain ⟨rfl, rfl, rfl⟩ := h
                obtain ⟨h1, h2, h3⟩ := ih _ os' rs' c'' hrec o ho
                exact ⟨h1, List.mem_cons_of_mem _ h2, h3⟩
          · rw [if_neg hcls] at h
            obtain ⟨h1, h2, h3⟩ := ih cache os rs c' h o ho
            exact ⟨h1, List.mem_cons_of_mem _ h2, h3⟩

theorem scanLines_spec (env : RefEnv) (q : Sym) (def_name : Str) (tm : Bool)
    (path : String) :
    ∀ (lines : List Str) (i : Nat) (cache : List Str) (os : List Occ)
      (rs : List Sym) (c' : List Str),
      scanLines env q def_name tm path i lines cache = some (os, rs, c') →
      ∀ o ∈ os, ∃ k raw, lines.get? k = some raw ∧ o.line = i + k ∧ raw ≠ [] ∧
        env.stripComment path raw ≠ [] ∧
        (env.stripComment path raw).head? ≠ some '#' ∧
        (o.sCol, o.eCol) ∈ findIter (env.stripComment path raw) def_name ∧
        (o.cls = RefClass.exact ↔
          (o.targetFqsn = q.fqsn ∨ o.targetFqsn ∈ o.cacheBefore)) := by
  intro lines
  induction lines with
  | nil =>
    intro i cache os rs c' h o ho
    simp only [scanLines, Option.some.injEq, Prod.mk.injEq] at h
    obtain ⟨rfl, -, -⟩ := h
    exact absurd ho (List.not_mem_nil o)
  | cons line rest ih =>
    intro i cache os rs c' h o ho
    simp only [scanLines] at h
    by_cases hemp : line = []
    · rw [if_pos hemp] at h
      obtain ⟨k, raw, hget, hline, hrest⟩ := ih (i + 1) cache os rs c' h o ho
      exact ⟨k + 1, raw, by simpa using hget, by omega, hrest⟩
    · rw [if_neg hemp] at h
      by_cases hskip : env.stripComment path line = [] ∨
          (env.stripComment path line).head? = some '#'
      · rw [if_pos hskip] at h
        obtain ⟨k, raw, hget, hline, hrest⟩ := ih (i + 1) cache os rs c' h o ho
        exact ⟨k + 1, raw, by simpa using hget, by omega, hrest⟩
      · rw [if_neg hskip] at h
        push_neg at hskip
        cases hpm : processMatches env q def_name tm path i
            (env.stripComment path line)
            (findIter (env.stripComment path line) def_name) cache with
        | none => rw [hpm] at h; exact Option.noConfusion h
        | some t1 =>
          obtain ⟨os1, rs1, cache1⟩ := t1
          rw [hpm] at h
          dsimp only at h
          cases hsc : scanLines env q def_name tm path (i + 1) rest cache1 with
          | none => rw [hsc] at h; exact Option.noConfusion h
          | some t2 =>
            obtain ⟨os2, rs2, cache2⟩ := t2
            rw [hsc] at h
            simp only [Option.some.injEq, Prod.mk.injEq] at h
            obtain ⟨rfl, -, -⟩ := h
            rcases List.mem_append.mp ho with hin1 | hin2
            · obtain ⟨h1, h2, h3⟩ :=
                processMatches_spec env q def_name tm path i _ _ _ _ _ _ hpm o hin1
              exact ⟨0, line, rfl, by omega, hemp, hskip.1, hskip.2, h2, h3⟩
            · obtain ⟨k, raw, hget, hline, hrest⟩ :=
                ih (i + 1) cache1 os2 rs2 cache2 hsc o hin2
              exact ⟨k + 1, raw, by simpa using hget, by omega, hrest⟩

theorem scanFiles_spec (env : RefEnv) (q : Sym) (def_name : Str) (tm : Bool) :
    ∀ (files : List (String × List Str)) (cache : List Str)
      (refs : List (String × List Occ)) (objs : List Sym),
      scanFiles env q def_name tm files cache = some (refs, objs) →
      ∀ path occs, (path, occs) ∈ refs →
        ∃ contents, (path, contents) ∈ files ∧
          ∀ o ∈ occs, ∃ k raw, contents.get? k = some raw ∧ o.line = k ∧
            raw ≠ [] ∧ env.stripComment path raw ≠ [] ∧
            (env.stripComment path raw).head? ≠ some '#' ∧
            (o.sCol, o.eCol) ∈ findIter (env.stripComment path raw) def_name ∧
            (o.cls = RefClass.exact ↔
              (o.targetFqsn = q.fqsn ∨ o.targetFqsn ∈ o.cacheBefore)) := by
  intro files
  induction files with
  | nil =>
    intro cache refs objs h path occs hmem
    simp only [scanFiles, Option.some.injEq, Prod.mk.injEq] at h
    obtain ⟨rfl, -⟩ := h
    exact absurd hmem (List.not_mem_nil _)
  | cons f fs ih =>
    intro cache refs objs h path occs hmem
    obtain ⟨p0, cont⟩ := f
    simp only [scanFiles] at h
    cases hsl : scanLines env q def_name tm p0 0 cont cache with
    | none => rw [hsl] at h; exact Option.noConfusion h
    | some t1 =>
      obtain ⟨os, rs, cache'⟩ := t1
      rw [hsl] at h
      dsimp only at h
      cases hsf : scanFiles env q def_name tm fs cache' with
      | none => rw [hsf] at h; exact Option.noConfusion h
      | some t2 =>
        obtain ⟨refs', rs'⟩ := t2
        rw [hsf] at h
        simp only [Option.some.injEq, Prod.mk.injEq] at h
        obtain ⟨rfl, -⟩ := h
        by_cases hos : os = []
        · rw [if_pos hos] at hmem
          simp only [List.nil_append] at hmem
          obtain ⟨contents, hc, hall⟩ := ih cache' refs' rs' hsf path occs hmem
          exact ⟨contents, List.mem_cons_of_mem _ hc, hall⟩
        · rw [if_neg hos] at hmem
          rcases List.mem_append.mp hmem with hhead | htail
          · rw [List.mem_singleton] at hhead
            obtain ⟨rfl, rfl⟩ := Prod.mk.injEq .. ▸ hhead
            refine ⟨cont, List.mem_cons_self _ _, ?_⟩
            intro o ho
            obtain ⟨k, raw, hget, hline, hrest⟩ :=
              scanLines_spec env q def_name tm path cont 0 cache occs rs cache'
                hsl o ho
            exact ⟨k, raw, hget, by omega, hrest⟩
          · obtain ⟨contents, hc, hall⟩ := ih cache' refs' rs' hsf path occs htail
            exact ⟨contents, List.mem_cons_of_mem _ hc, hall⟩

/-- Claim C1: in every reference search, `get_all_references` records
occurrences only on non-empty lines that are not comment-only after
stripping trailing comments, each recorded span is a whole-word,
case-insensitive occurrence of the symbol's lowercased name, and an
occurrence is classified as an exact match exactly when the resolved
target's FQSN equals the queried symbol's FQSN or is already in the
per-call override cache. -/
theorem C1_reference_scan (env : RefEnv) (files : List (String × List Str))
    (q : Sym) (type_mem : Bool) (refs : List (String × List Occ)) (objs : List Sym)
    (_hname : lowerL q.name ≠ [] ∧ ∀ c ∈ lowerL q.name, isWordChar c = true)
    (h : get_all_references env files q type_mem = some (refs, objs)) :
    ∀ path occs, (path, occs) ∈ refs →
      ∃ contents, (path, contents) ∈ files ∧
        ∀ o ∈ occs, ∃ k raw, contents.get? k = some raw ∧ o.line = k ∧
          raw ≠ [] ∧ env.stripComment path raw ≠ [] ∧
          (env.stripComment path raw).head? ≠ some '#' ∧
          wholeWordAt (env.stripComment path raw) (lowerL q.name) o.sCol o.eCol ∧
          (o.cls = RefClass.exact ↔
            (o.targetFqsn = q.fqsn ∨ o.targetFqsn ∈ o.cacheBefore)) := by
  intro path occs hmem
  obtain ⟨contents, hc, hall⟩ :=
    scanFiles_spec env q (lowerL q.name) type_mem files [] refs objs h path occs hmem
  refine ⟨contents, hc, ?_⟩
  intro o ho
  obtain ⟨k, raw, h1, h2, h3, h4, h5, h6, h7⟩ := hall o ho
  exact ⟨k, raw, h1, h2, h3, h4, h5, findIter_wholeWord h6, h7⟩

set_option maxRecDepth 40000 in
/-- Witness for claim C1 on a concrete one-line file. -/
theorem C1_witness :
    ∃ contents, ("w.rules", contents) ∈ c1Files ∧
      ∃ k raw, contents.get? k = some raw ∧ c1Occ.line = k ∧ raw ≠ [] ∧
        c1Env.stripComment "w.rules" raw ≠ [] ∧
        (c1Env.stripComment "w.rules" raw).head? ≠ some '#' ∧
        wholeWordAt (c1Env.stripComment "w.rules" raw) (lowerL c1Q.name)
          c1Occ.sCol c1Occ.eCol ∧
        (c1Occ.cls = RefClass.exact ↔
          (c1Occ.targetFqsn = c1Q.fqsn ∨ c1Occ.targetFqsn ∈ c1Occ.cacheBefore)) := by
  obtain ⟨contents, hc, hall⟩ :=
    C1_reference_scan c1Env c1Files c1Q false [("w.rules", [c1Occ])] []
      (by decide) (by decide) "w.rules" [c1Occ] (by decide)
  exact ⟨contents, hc, hall c1Occ (by decide)⟩

/-- Claim C7: a rename request whose symbol resolves but whose reference
search returns zero files with occurrences posts a warning message,
produces no edits, raises no exception, and returns the server state
unchanged. -/
theorem C7_rename_no_references (env : RefEnv) (st : ServerState) (path : String)
    (def_line def_char : Nat) (newName : Str) (fo : SuricataFile) (d : Sym)
    (files : List (String × List Str)) (type_mem : Bool) (objs : List Sym)
    (hws : alookup st.workspace path = some fo)
    (hdef : env.getDef path def_line def_char = some d)
    (hset : renameSearchSet st d = some (some (files, type_mem)))
    (hrefs : get_all_references env files d type_mem = some ([], objs)) :
    serve_rename env st path def_line def_char newName =
      some (st, none, [(2, renameFailedMsg)]) := by
  simp [serve_rename, hws, hdef, hset, hrefs]

/-- Witness for claim C7 at a concrete one-file state. -/
theorem C7_witness :
    serve_rename c7Env c7State "r.rules" 0 0 "y".data =
      some (c7State, none, [(2, renameFailedMsg)]) :=
  C7_rename_no_references c7Env c7State "r.rules" 0 0 "y".data c7File c7Sym
    [("r.rules", [])] false [] (by decide) rfl rfl (by decide)

end Suricatals
